import Mathlib

/-!
Verification of the metadata extraction & classification engine of the
Arsip Kelurahan document automation repository.

The Python sources (app/services/metadata.py, app/services/ocr.py,
app/routers/upload.py) are shallowly embedded below: strings become
`List Char` (with `String` wrappers at the API boundary), each regular
expression used by the code is hand-compiled into an executable scanner
with the same leftmost-match / greedy-with-backtracking semantics on the
character sets the code manipulates, and Python truthiness of optional
values is made explicit.  Machine floats carrying rule confidences are
modelled as exact rationals (the code only ever compares them to literal
decimal constants in ways the rationals reproduce).
-/

set_option maxRecDepth 10000

namespace Arsip

/-- Apostrophe character (0x27), kept out of literals. -/
def apos : Char := Char.ofNat 39

/-- Backtick character (0x60). -/
def btick : Char := Char.ofNat 96

/-- Double quote character (0x22). -/
def dquote : Char := Char.ofNat 34

/-- Python `\s` on the ASCII range: space, tab, newline, carriage return,
vertical tab, form feed. -/
def isPySpace (c : Char) : Bool :=
  c = ' ' || c = '\t' || c = '\n' || c = '\x0d' || c = Char.ofNat 11 || c = Char.ofNat 12

/-- Python `\w` on the ASCII range (the texts the engine manipulates). -/
def isWordChar (c : Char) : Bool :=
  c.isAlpha || c.isDigit || c = '_'

/-- ASCII letter or digit. -/
def isAlnumChar (c : Char) : Bool :=
  c.isAlpha || c.isDigit

/-- Whether a regex word boundary `\b` sits before the current position:
the previous character (if any) is not a word character.  Used for patterns
that begin with a word character. -/
def wordStartOk (prev : Option Char) : Bool :=
  match prev with
  | none => true
  | some p => !isWordChar p

/-- Whether `\b` holds after a match ending in character `last` when the
next character is `next` (`none` = end of input). -/
def boundaryAfter (last : Char) (next : Option Char) : Bool :=
  match next with
  | none => isWordChar last
  | some n => isWordChar last != isWordChar n

/-- Drop matching characters from the end of a list. -/
def dropWhileEnd (p : Char → Bool) (l : List Char) : List Char :=
  (l.reverse.dropWhile p).reverse

/-- Python `str.strip()` (whitespace from both ends). -/
def pyStrip (l : List Char) : List Char :=
  dropWhileEnd isPySpace (l.dropWhile isPySpace)

/-- Python `str.strip(chars)`. -/
def pyStripChars (cs : List Char) (l : List Char) : List Char :=
  dropWhileEnd (fun c => cs.contains c) (l.dropWhile (fun c => cs.contains c))

/-- Python `str.lstrip(chars)`. -/
def pyLStripChars (cs : List Char) (l : List Char) : List Char :=
  l.dropWhile (fun c => cs.contains c)

/-- Auxiliary for `pySplitlines`: split on newline characters. -/
def splitOnNlAux : List Char → List Char → List (List Char)
  | acc, [] => [acc.reverse]
  | acc, c :: cs =>
    if c = '\n' then acc.reverse :: splitOnNlAux [] cs
    else splitOnNlAux (c :: acc) cs

/-- Python `str.splitlines()` for texts whose only line separator is `\n`
(the engine's cleaned texts): the trailing empty piece after a final
newline is not produced, and the empty string yields no lines. -/
def pySplitlines (l : List Char) : List (List Char) :=
  if l = [] then []
  else
    let parts := splitOnNlAux [] l
    if l.getLast? = some '\n' then parts.dropLast else parts

/-- Fuel-indexed implementation of Python `str.split()`; every step
consumes at least one character, so fuel `l.length` is never exhausted. -/
def pySplitWsFuel : Nat → List Char → List (List Char)
  | _, [] => []
  | 0, _ => []
  | fuel + 1, l =>
    match l.dropWhile isPySpace with
    | [] => []
    | c :: cs =>
      (c :: cs.takeWhile (fun d => !isPySpace d)) ::
        pySplitWsFuel fuel (cs.dropWhile (fun d => !isPySpace d))

/-- Python `str.split()` (tokenising on runs of whitespace). -/
def pySplitWs (l : List Char) : List (List Char) :=
  pySplitWsFuel l.length l

/-- Fuel-indexed implementation of Python `str.replace`. -/
def pyReplaceFuel (pat rep : List Char) : Nat → List Char → List Char
  | _, [] => []
  | 0, l => l
  | fuel + 1, c :: cs =>
    if pat ≠ [] ∧ pat.isPrefixOf (c :: cs) then
      rep ++ pyReplaceFuel pat rep fuel (cs.drop (pat.length - 1))
    else
      c :: pyReplaceFuel pat rep fuel cs

/-- Python `str.replace(pat, rep)`: left-to-right, non-overlapping. -/
def pyReplace (pat rep : List Char) (l : List Char) : List Char :=
  pyReplaceFuel pat rep l.length l

/-- Python `str.lower()` on ASCII. -/
def lcL (l : List Char) : List Char := l.map Char.toLower

/-- Python `str.upper()` on ASCII. -/
def ucL (l : List Char) : List Char := l.map Char.toUpper

/-- Python `str.isupper()`: at least one cased character and no lowercase
cased character (ASCII: cased = letter). -/
def pyIsUpper (l : List Char) : Bool :=
  l.any (fun c => c.isAlpha) && l.all (fun c => !c.isAlpha || c.isUpper)

/-- Python `str.isdigit()` on ASCII. -/
def pyIsDigit (l : List Char) : Bool :=
  l ≠ [] && l.all (fun c => c.isDigit)

/-- Auxiliary for `pyTitle`: the flag records whether the previous
character was cased. -/
def pyTitleAux : Bool → List Char → List Char
  | _, [] => []
  | prevCased, c :: cs =>
    if c.isAlpha then
      (if prevCased then c.toLower else c.toUpper) :: pyTitleAux true cs
    else
      c :: pyTitleAux false cs

/-- Python `str.title()` on ASCII. -/
def pyTitle (l : List Char) : List Char := pyTitleAux false l

/-- Substring containment (`pat in s` for Python strings). -/
def containsSub (pat l : List Char) : Bool :=
  match l with
  | [] => pat.isPrefixOf ([] : List Char)
  | _ :: cs => pat.isPrefixOf l || containsSub pat cs

/-- Case-insensitive prefix test (ASCII). -/
def ciPrefix (pat l : List Char) : Bool :=
  (lcL pat).isPrefixOf (lcL l)

/-! ### The `_clean_text` pipeline (metadata.py) -/

/-- The literal OCR-error replacements of `_clean_text`, applied in order. -/
def ocrReplacements : List (List Char × List Char) :=
  [ (['/', '-'], ['-'])
  , (['I', '/'], ['/'])
  , (['|', '/'], ['/'])
  , (['\\', ' ', '/'], [])
  , (['O', 'S', ' ', apos, '/'], ['0', '5', ' ', '/'])
  , (['O', 'B', ' ', apos, '/'], ['0', '8', ' ', '/'])
  , (['O', 'I', ' ', apos, '/'], ['0', '1', ' ', '/'])
  , (['O', '5', ' ', apos, '/'], ['0', '5', ' ', '/']) ]

/-- Apply the chain of literal replacements. -/
def applyReplacements (l : List Char) : List Char :=
  ocrReplacements.foldl (fun t p => pyReplace p.1 p.2 t) l

/-- Matcher for `re.sub(r'(\d)\\\s*/', r'\1/', t)` at a position whose head
is the digit: given the characters after the digit, return the number of
them consumed by `\\\s*/`. -/
def sub1Tail (cs : List Char) : Option Nat :=
  match cs with
  | '\\' :: rest =>
    let w := rest.takeWhile isPySpace
    match rest.drop w.length with
    | '/' :: _ => some (1 + w.length + 1)
    | _ => none
  | _ => none

/-- Fuel-indexed implementation of the digit-backslash-slash repair. -/
def sub1Fuel : Nat → List Char → List Char
  | _, [] => []
  | 0, l => l
  | fuel + 1, c :: cs =>
    if c.isDigit then
      match sub1Tail cs with
      | some n => c :: '/' :: sub1Fuel fuel (cs.drop n)
      | none => c :: sub1Fuel fuel cs
    else c :: sub1Fuel fuel cs

/-- `re.sub(r'(\d)\\\s*/', r'\1/', t)`. -/
def sub1 (l : List Char) : List Char :=
  sub1Fuel l.length l

/-- Matcher for the `\s*'\s*/` tail of `re.sub(r"(\d{2,3})\s*'\s*/", ...)`:
returns the number of characters consumed. -/
def sub2Tail (rest : List Char) : Option Nat :=
  let w1 := rest.takeWhile isPySpace
  match rest.drop w1.length with
  | c :: r3 =>
    if c = apos then
      let w2 := r3.takeWhile isPySpace
      match r3.drop w2.length with
      | '/' :: _ => some (w1.length + 1 + w2.length + 1)
      | _ => none
    else none
  | [] => none

/-- Greedy `\d{2,3}` with backtracking at the head of `l`, followed by
`sub2Tail`: returns (digit group, total consumed). -/
def sub2Match (l : List Char) : Option (List Char × Nat) :=
  let d3 := l.take 3
  let try3 : Option (List Char × Nat) :=
    if d3.length = 3 && d3.all (·.isDigit) then
      match sub2Tail (l.drop 3) with
      | some n => some (d3, 3 + n)
      | none => none
    else none
  match try3 with
  | some r => some r
  | none =>
    let d2 := l.take 2
    if d2.length = 2 && d2.all (·.isDigit) then
      match sub2Tail (l.drop 2) with
      | some n => some (d2, 2 + n)
      | none => none
    else none

/-- Fuel-indexed implementation of the apostrophe-artifact repair. -/
def sub2Fuel : Nat → List Char → List Char
  | _, [] => []
  | 0, l => l
  | fuel + 1, c :: cs =>
    if c.isDigit then
      match sub2Match (c :: cs) with
      | some (d, n) => d ++ [' ', '/'] ++ sub2Fuel fuel (cs.drop (n - 1))
      | none => c :: sub2Fuel fuel cs
    else c :: sub2Fuel fuel cs

/-- `re.sub(r"(\d{2,3})\s*'\s*/", r"\1 /", t)`. -/
def sub2 (l : List Char) : List Char :=
  sub2Fuel l.length l

/-- The contextual O→0 / l→1 confusion fix applied inside matches of the
registration-number shape. -/
def fixChar (c : Char) : Char :=
  if c = 'O' then '0' else if c = 'l' then '1' else c

/-- Character class `[\-\/\.]` of the registration-number shape. -/
def isNomorSep (c : Char) : Bool :=
  c = '-' || c = '/' || c = '.'

/-- Character class `[A-Z0-9Ol\.\-\/]` under IGNORECASE. -/
def isNomorTailChar (c : Char) : Bool :=
  isAlnumChar c || isNomorSep c

/-- Backtracking over the trailing `{2,}` run of the registration-number
shape: find the largest `m ≤ mmax`, `m ≥ 2`, such that `\b` holds after the
`m`-th tail character.  `run` is the maximal tail-class run, `after` the
characters following it. -/
def nomorTailPick (run : List Char) (after : List Char) : Nat → Option Nat
  | 0 => none
  | m + 1 =>
    if m + 1 < 2 then none
    else
      match run.get? m with
      | some last =>
        let next : Option Char :=
          if m + 1 < run.length then run.get? (m + 1) else after.head?
        if boundaryAfter last next then some (m + 1) else nomorTailPick run after m
      | none => nomorTailPick run after m

/-- Backtracking over the leading `{1,8}` run: try `k` head characters
(largest first), require a separator, then a tail pick.  Returns the total
number of characters matched from `l`. -/
def nomorHeadPick (l : List Char) : Nat → Option Nat
  | 0 => none
  | k + 1 =>
    match l.get? (k + 1) with
    | some sep =>
      if isNomorSep sep then
        let rest := l.drop (k + 2)
        let run := rest.takeWhile isNomorTailChar
        match nomorTailPick run (rest.drop run.length) run.length with
        | some m => some (k + 2 + m)
        | none => nomorHeadPick l k
      else nomorHeadPick l k
    | none => nomorHeadPick l k

/-- Match the pattern `\b[A-Z0-9Ol]{1,8}[\-\/\.][A-Z0-9Ol\.\-\/]{2,}\b`
(IGNORECASE) at the head of `l`; `prev` is the preceding character.
Returns the matched length. -/
def nomorShapeMatch (prev : Option Char) (l : List Char) : Option Nat :=
  if !wordStartOk prev then none
  else
    let aRun := l.takeWhile isAlnumChar
    nomorHeadPick l (min aRun.length 8)

/-- Fuel-indexed implementation of the registration-number-shape `re.sub`
with the O→0 / l→1 fix; `prev` is the character before the current
position in the original text. -/
def nomorFixFuel : Nat → Option Char → List Char → List Char
  | _, _, [] => []
  | 0, _, l => l
  | fuel + 1, prev, c :: cs =>
    match nomorShapeMatch prev (c :: cs) with
    | some n =>
      let span := (c :: cs).take n
      span.map fixChar ++ nomorFixFuel fuel span.getLast? (cs.drop (n - 1))
    | none => c :: nomorFixFuel fuel (some c) cs

/-- `re.sub` of the registration-number shape, scanning left to right. -/
def nomorFix (prev : Option Char) (l : List Char) : List Char :=
  nomorFixFuel l.length prev l

/-- Fuel-indexed implementation of `re.sub(r"[ \t]+", " ", t)`. -/
def collapseSpacesFuel : Nat → List Char → List Char
  | _, [] => []
  | 0, l => l
  | fuel + 1, c :: cs =>
    if c = ' ' || c = '\t' then
      ' ' :: collapseSpacesFuel fuel (cs.dropWhile (fun d => d = ' ' || d = '\t'))
    else c :: collapseSpacesFuel fuel cs

/-- `re.sub(r"[ \t]+", " ", t)`. -/
def collapseSpaces (l : List Char) : List Char :=
  collapseSpacesFuel l.length l

/-- Fuel-indexed implementation of `re.sub(r"\s+", " ", t)`. -/
def collapseAllWsFuel : Nat → List Char → List Char
  | _, [] => []
  | 0, l => l
  | fuel + 1, c :: cs =>
    if isPySpace c then
      ' ' :: collapseAllWsFuel fuel (cs.dropWhile isPySpace)
    else c :: collapseAllWsFuel fuel cs

/-- `re.sub(r"\s+", " ", t)` (used by `_normalize_line`). -/
def collapseAllWs (l : List Char) : List Char :=
  collapseAllWsFuel l.length l

/-- `re.sub(r"\n\s*\n\s*\n+", "\n\n", t)`: a maximal whitespace run
containing at least three newlines is matched greedily from its first
newline through its last newline and replaced by exactly two newlines. -/
def collapseBlankLinesFuel : Nat → List Char → List Char
  | _, [] => []
  | 0, l => l
  | fuel + 1, c :: cs =>
    if c = '\n' && 2 ≤ (cs.takeWhile isPySpace).count '\n' then
      '\n' :: '\n' ::
        collapseBlankLinesFuel fuel
          (cs.drop (dropWhileEnd (fun d => d ≠ '\n') (cs.takeWhile isPySpace)).length)
    else c :: collapseBlankLinesFuel fuel cs

/-- The blank-line collapse of `_clean_text`. -/
def collapseBlankLines (l : List Char) : List Char :=
  collapseBlankLinesFuel l.length l

/-- `_clean_text` of metadata.py on character lists. -/
def cleanL (l : List Char) : List Char :=
  pyStrip (collapseBlankLines (collapseSpaces (nomorFix none (sub2 (sub1 (applyReplacements l))))))

/-- `_clean_text` of metadata.py. -/
def cleanText (s : String) : String :=
  ⟨cleanL s.data⟩

/-! ### Label-block extraction (metadata.py) -/

/-- `LABEL_ALIASES` of metadata.py. -/
def labelAliases : List (String × List String) :=
  [ ("nomor", ["nomor", "no", "nomer", "nemor"])
  , ("perihal", ["perihal", "hal"])
  , ("lampiran", ["lampiran"])
  , ("sifat", ["sifat"]) ]

/-- `_is_label_line`: the pre-colon part of the line, lowercased and
stripped of " :.-", must equal one of the aliases. -/
def isLabelLine (line : List Char) : Option String :=
  let labelPart := if line.contains ':' then line.takeWhile (fun c => c ≠ ':') else line
  let lowered := pyStripChars [' ', ':', '.', '-'] (lcL labelPart)
  (labelAliases.find? (fun p => p.2.any (fun a => a.data = lowered))).map (fun p => p.1)

/-- `_normalize_line`. -/
def normalizeLine (value : List Char) : Option (List Char) :=
  if value = [] then none
  else
    let cleaned := pyStripChars [' ', ':', '-'] (collapseAllWs value)
    if cleaned = [] then none
    else if pyIsUpper cleaned then some (pyTitle cleaned)
    else some cleaned

/-- Blacklist of administrative words rejected as a whole nomor value. -/
def nomorBlacklist : List String :=
  [ "sifat", "biasa", "penting", "segera", "rahasia"
  , "lampiran", "hal", "perihal", "kepada", "yth"
  , "tanggal", "tembusan", "dari" ]

/-- Search for `\d+[/\-][A-Za-z0-9]`: some digit immediately followed by a
separator and an alphanumeric character. -/
def hasDigitSepAlnum : List Char → Bool
  | c1 :: c2 :: c3 :: rest =>
    (c1.isDigit && (c2 = '/' || c2 = '-') && isAlnumChar c3)
      || hasDigitSepAlnum (c2 :: c3 :: rest)
  | _ => false

/-- `_filtered_label_value`. -/
def filteredLabelValue (value : Option (List Char)) (labelKey : Option String) :
    Option (List Char) :=
  match value with
  | none => none
  | some v =>
    if v = [] then none
    else if labelKey = some "nomor" then
      let vl := pyStrip (lcL v)
      if nomorBlacklist.any (fun w => w.data = vl) then none
      else if !hasDigitSepAlnum v then none
      else if !(v.head?.elim false Char.isDigit) then none
      else some v
    else some v

/-- Python `str.split(":", 1)` when a colon is present: the parts before
and after the first colon. -/
def splitFirstColon (l : List Char) : Option (List Char × List Char) :=
  if l.contains ':' then
    some (l.takeWhile (fun c => c ≠ ':'), (l.dropWhile (fun c => c ≠ ':')).drop 1)
  else none

/-- First whitespace-delimited token of a value, or the value itself when
it has no token (`value.split()[0] if value.split() else value`). -/
def firstTokenOrSelf (v : List Char) : List Char :=
  match pySplitWs v with
  | [] => v
  | t :: _ => t

/-- `re.match(r"(?i)^(kepada|yth|dengan|sehubungan)", line)`. -/
def startsRecipientMarker (line : List Char) : Bool :=
  ["kepada", "yth", "dengan", "sehubungan"].any (fun w => ciPrefix w.data line)

/-- Join with single spaces (`" ".join`). -/
def joinSpace (xs : List (List Char)) : List Char :=
  List.intercalate [' '] xs

/-- Continuation-line collection for multi-line perihal values: up to
`fuel` further lines starting at index `i`, stopping at a blank line,
another label line, or a recipient marker. -/
def collectPerihalCont (lines : List (List Char)) : Nat → Nat → List (List Char)
  | _, 0 => []
  | i, fuel + 1 =>
    match lines.get? i with
    | none => []
    | some ln =>
      let nl := pyStrip ln
      if nl = [] then []
      else if (isLabelLine nl).isSome then []
      else if startsRecipientMarker nl then []
      else nl :: collectPerihalCont lines (i + 1) fuel

/-- Same-line branch of `_find_label_value` ("Priority 1").  The outer
`Option` distinguishes an explicit `return` (`some r`, where `r` may be
`none` for `return None`-like paths) from falling through to the next-line
branch. -/
def findLabelValueP1 (lines : List (List Char)) (idx : Nat) (labelKey : Option String) :
    Option (Option (List Char)) :=
  let current := lines.getD idx []
  match splitFirstColon current with
  | none => none
  | some (_, after) =>
    let value := pyStrip after
    if labelKey = some "perihal" && value ≠ [] then
      some (filteredLabelValue
        (normalizeLine (joinSpace (value :: collectPerihalCont lines (idx + 1) 4)))
        labelKey)
    else if labelKey = some "nomor" && value ≠ [] then
      match filteredLabelValue (some (firstTokenOrSelf value)) labelKey with
      | some f => some (some f)
      | none => none
    else if value ≠ [] then
      some (filteredLabelValue (normalizeLine value) labelKey)
    else none

/-- One step of the next-line loop of `_find_label_value` ("Priority 2").
`some r` = the loop returns `r` (a `break` returns `none`); `none` =
`continue` with the next offset. -/
def findLabelValueP2Step (lines : List (List Char)) (j : Nat) (labelKey : Option String) :
    Option (Option (List Char)) :=
  match lines.get? j with
  | none => some none
  | some ln =>
    let candidate := pyStrip ln
    if candidate = [] then none
    else if (isLabelLine candidate).isSome then some none
    else
      match candidate with
      | ':' :: restAfterColon =>
        let value := pyStrip restAfterColon
        if labelKey = some "perihal" && value ≠ [] then
          some (filteredLabelValue
            (normalizeLine (joinSpace (value :: collectPerihalCont lines (j + 1) 4)))
            labelKey)
        else if labelKey = some "nomor" && value ≠ [] then
          some (filteredLabelValue (some (firstTokenOrSelf value)) labelKey)
        else
          some (filteredLabelValue (normalizeLine value) labelKey)
      | _ => some (filteredLabelValue (normalizeLine candidate) labelKey)

/-- `_find_label_value`. -/
def findLabelValue (lines : List (List Char)) (idx : Nat) (labelKey : Option String) :
    Option (List Char) :=
  match findLabelValueP1 lines idx labelKey with
  | some r => r
  | none =>
    match findLabelValueP2Step lines (idx + 1) labelKey with
    | some r => r
    | none =>
      match findLabelValueP2Step lines (idx + 2) labelKey with
      | some r => r
      | none => none

/-- Dictionary assignment `values[key] = v`. -/
def assocSet (k : String) (v : List Char) :
    List (String × List Char) → List (String × List Char)
  | [] => [(k, v)]
  | (k0, v0) :: rest => if k0 = k then (k, v) :: rest else (k0, v0) :: assocSet k v rest

/-- Dictionary lookup `values.get(key)`. -/
def lookupLabel (values : List (String × List Char)) (k : String) : Option (List Char) :=
  (values.find? (fun p => p.1 = k)).map (fun p => p.2)

/-- `extract_label_block_values`. -/
def extractLabelBlockValues (t : List Char) : List (String × List Char) :=
  let lines := ((pySplitlines t).map pyStrip).filter (fun l => l ≠ [])
  (List.range lines.length).foldl
    (fun values idx =>
      match isLabelLine (lines.getD idx []) with
      | none => values
      | some key =>
        match findLabelValue lines idx (some key) with
        | some v => if v ≠ [] then assocSet key v values else values
        | none => values)
    []

/-! ### Number extraction (`extract_nomor_surat`, metadata.py) -/

/-- Character class `[A-Za-z0-9./\-]` of the nomor value patterns. -/
def isNomorValChar (c : Char) : Bool :=
  isAlnumChar c || c = '.' || c = '/' || c = '-'

/-- Generic scanner carrying the previous character, for patterns that
begin with `\b`: try the matcher at each position, left to right. -/
def scanWithPrev {α : Type} (m : Option Char → List Char → Option α) :
    Option Char → List Char → Option α
  | prev, [] => m prev []
  | prev, c :: cs =>
    match m prev (c :: cs) with
    | some r => some r
    | none => scanWithPrev m (some c) cs

/-- `re.search` for a matcher needing the previous character. -/
def searchPattern {α : Type} (m : Option Char → List Char → Option α) (l : List Char) :
    Option α :=
  scanWithPrev m none l

/-- Plain scanner for patterns with no leading `\b`. -/
def scanNoPrev {α : Type} (m : List Char → Option α) : List Char → Option α
  | [] => m []
  | c :: cs =>
    match m (c :: cs) with
    | some r => some r
    | none => scanNoPrev m cs

/-- First successful application of `f` along a list. -/
def firstSomeList {α β : Type} (f : α → Option β) : List α → Option β
  | [] => none
  | x :: xs =>
    match f x with
    | some r => some r
    | none => firstSomeList f xs

/-- Remainders to try for the gap `\s*[:.]?\s*`, in backtracking order
(the optional colon/period is consumed first when present). -/
def gapRemainders (l : List Char) : List (List Char) :=
  let r1 := l.dropWhile isPySpace
  match r1 with
  | c :: rest =>
    if c = ':' || c = '.' then [rest.dropWhile isPySpace, r1] else [r1]
  | [] => [r1]

/-- Value matcher for `e-\d+[/\-][A-Za-z0-9./\-]+` (IGNORECASE on the
literal `e`). -/
def valueP1 (l : List Char) : Option (List Char) :=
  match l with
  | e :: '-' :: rest =>
    if e.toLower = 'e' then
      let d := rest.takeWhile Char.isDigit
      if d = [] then none
      else
        match rest.drop d.length with
        | sep :: rest2 =>
          if sep = '/' || sep = '-' then
            let tail := rest2.takeWhile isNomorValChar
            if tail = [] then none
            else some (e :: '-' :: (d ++ sep :: tail))
          else none
        | [] => none
    else none
  | _ => none

/-- Value matcher for `\d+[/\-][A-Za-z0-9./\-]+`. -/
def valueP2 (l : List Char) : Option (List Char) :=
  let d := l.takeWhile Char.isDigit
  if d = [] then none
  else
    match l.drop d.length with
    | sep :: rest =>
      if sep = '/' || sep = '-' then
        let tail := rest.takeWhile isNomorValChar
        if tail = [] then none else some (d ++ sep :: tail)
      else none
    | [] => none

/-- Value matcher for `\d+\s+[/\-][A-Za-z0-9./\-]+` (spaces between the
digits and the separator, as produced by OCR). -/
def valueP3 (l : List Char) : Option (List Char) :=
  let d := l.takeWhile Char.isDigit
  if d = [] then none
  else
    let rest := l.drop d.length
    let w := rest.takeWhile isPySpace
    if w = [] then none
    else
      match rest.drop w.length with
      | sep :: rest2 =>
        if sep = '/' || sep = '-' then
          let tail := rest2.takeWhile isNomorValChar
          if tail = [] then none else some (d ++ w ++ sep :: tail)
        else none
      | [] => none

/-- Value matcher for `[A-Z]{1,2}\s*['\\/]\s*[A-Z]{2}\.[0-9.]+`
(IGNORECASE): OCR noise where letters stand in for leading digits. -/
def valueP5 (l : List Char) : Option (List Char) :=
  let tryLen : Nat → Option (List Char) := fun k =>
    let hd := l.take k
    if hd.length = k && hd.all Char.isAlpha then
      let rest := l.drop k
      let w1 := rest.takeWhile isPySpace
      match rest.drop w1.length with
      | q :: rest2 =>
        if q = apos || q = '\\' || q = '/' then
          let w2 := rest2.takeWhile isPySpace
          match rest2.drop w2.length with
          | a :: b :: '.' :: rest3 =>
            if a.isAlpha && b.isAlpha then
              let dd := rest3.takeWhile (fun c => c.isDigit || c = '.')
              if dd = [] then none
              else some (hd ++ w1 ++ q :: (w2 ++ a :: b :: '.' :: dd))
            else none
          | _ => none
        else none
      | [] => none
    else none
  match tryLen 2 with
  | some r => some r
  | none => tryLen 1

/-- Matcher for the label-introduced nomor patterns
`\b(<alts>)\s*[:.]?\s*(<value>)` (IGNORECASE), with backtracking over the
alternatives in order. -/
def matchLabelValue (alts : List String) (valueM : List Char → Option (List Char))
    (prev : Option Char) (l : List Char) : Option (List Char) :=
  if !wordStartOk prev then none
  else
    firstSomeList
      (fun a =>
        if ciPrefix a.data l then
          firstSomeList valueM (gapRemainders (l.drop a.data.length))
        else none)
      alts

/-- Matcher for `\b(Nomor|No)\s*\n\s*[:.]?\s*(\d+[/\-][A-Za-z0-9./\-]+)`:
the label and the value separated by a line break. -/
def matchP4 (prev : Option Char) (l : List Char) : Option (List Char) :=
  if !wordStartOk prev then none
  else
    firstSomeList
      (fun a =>
        if ciPrefix a.data l then
          let rest := l.drop a.data.length
          let run := rest.takeWhile isPySpace
          if run.contains '\n' then
            let after := rest.drop run.length
            let rems :=
              match after with
              | c :: r2 =>
                if c = ':' || c = '.' then [r2.dropWhile isPySpace, after] else [after]
              | [] => [after]
            firstSomeList valueP2 rems
          else none
        else none)
      ["Nomor", "No"]

/-- Matcher for `\b(\d{2,3})\s*[/\-]\s*([A-Z]{2}\.[0-9.]+)\b`
(case-sensitive), returning group 2 only — exactly what the code reads off
this pattern. -/
def matchP6 (prev : Option Char) (l : List Char) : Option (List Char) :=
  if !wordStartOk prev then none
  else
    let dRun := l.takeWhile Char.isDigit
    let tryK : Nat → Option (List Char) := fun k =>
      if k ≤ dRun.length then
        let rest := l.drop k
        let w1 := rest.takeWhile isPySpace
        match rest.drop w1.length with
        | sep :: rest2 =>
          if sep = '/' || sep = '-' then
            let w2 := rest2.takeWhile isPySpace
            match rest2.drop w2.length with
            | a :: b :: '.' :: rest3 =>
              if a.isUpper && b.isUpper then
                let dd := rest3.takeWhile (fun c => c.isDigit || c = '.')
                let afterDd := rest3.drop dd.length
                let rec pickM : Nat → Option Nat := fun m =>
                  match m with
                  | 0 => none
                  | m' + 1 =>
                    match dd.get? m' with
                    | some last =>
                      let next : Option Char :=
                        if m' + 1 < dd.length then dd.get? (m' + 1) else afterDd.head?
                      if boundaryAfter last next then some (m' + 1) else pickM m'
                    | none => pickM m'
                match pickM dd.length with
                | some m => some (a :: b :: '.' :: dd.take m)
                | none => none
              else none
            | _ => none
          else none
        | [] => none
      else none
    match tryK 3 with
    | some r => some r
    | none => tryK 2

/-- The six value searches of `extract_nomor_surat`, in priority order. -/
def nomorPatternSearches (T : List Char) : List (Option (List Char)) :=
  [ searchPattern (matchLabelValue ["Nomor", "No", "Nomer", "Nemor"] valueP1) T
  , searchPattern (matchLabelValue ["Nomor", "No", "Nomer", "Nemor"] valueP2) T
  , searchPattern (matchLabelValue ["Nomor", "No", "Nomer", "Nemor"] valueP3) T
  , searchPattern matchP4 T
  , searchPattern (matchLabelValue ["Nomor", "No", "Nomer"] valueP5) T
  , searchPattern matchP6 T ]

/-- `re.sub(r'(\d+)\s+([/\-])', r'\1\2', nomor)`: drop whitespace between
digits and a following separator. -/
def cleanupNumSpaceFuel : Nat → List Char → List Char
  | _, [] => []
  | 0, l => l
  | fuel + 1, c :: cs =>
    if c.isDigit then
      let d := (c :: cs).takeWhile Char.isDigit
      let rest := (c :: cs).drop d.length
      let w := rest.takeWhile isPySpace
      match rest.drop w.length with
      | sep :: _ =>
        if w ≠ [] && (sep = '/' || sep = '-') then
          d ++ sep :: cleanupNumSpaceFuel fuel (cs.drop (d.length + w.length))
        else c :: cleanupNumSpaceFuel fuel cs
      | [] => c :: cleanupNumSpaceFuel fuel cs
    else c :: cleanupNumSpaceFuel fuel cs

/-- The digit-space-separator cleanup applied to pattern candidates. -/
def cleanupNumSpace (l : List Char) : List Char :=
  cleanupNumSpaceFuel l.length l

/-- Full match of the date shape the number extractor excludes: one or two
digits, a dash-or-slash separator, one or two digits, a separator, then
two to four digits. -/
def dateShaped (s : List Char) : Bool :=
  let d1 := s.takeWhile Char.isDigit
  if 1 ≤ d1.length && d1.length ≤ 2 then
    match s.drop d1.length with
    | sep1 :: rest1 =>
      if sep1 = '-' || sep1 = '/' then
        let d2 := rest1.takeWhile Char.isDigit
        if 1 ≤ d2.length && d2.length ≤ 2 then
          match rest1.drop d2.length with
          | sep2 :: rest2 =>
            (sep2 = '-' || sep2 = '/') && rest2 ≠ [] && rest2.all Char.isDigit
              && 2 ≤ rest2.length && rest2.length ≤ 4
          | [] => false
        else false
      else false
    | [] => false
  else false

/-- Full match of `^\d+[/\-][A-Za-z0-9./\-]{2,}$` (token scan shape). -/
def tokenNomorShape (s : List Char) : Bool :=
  let d := s.takeWhile Char.isDigit
  if d = [] then false
  else
    match s.drop d.length with
    | sep :: rest =>
      (sep = '/' || sep = '-') && 2 ≤ rest.length && rest.all isNomorValChar
    | [] => false

/-- Full match of `^\d+[/\-][A-Za-z0-9./\-]+$` (filename token shape). -/
def fileTokenShape (s : List Char) : Bool :=
  let d := s.takeWhile Char.isDigit
  if d = [] then false
  else
    match s.drop d.length with
    | sep :: rest =>
      (sep = '/' || sep = '-') && rest ≠ [] && rest.all isNomorValChar
    | [] => false

/-- Search `(\d{2,3})\s+/\s+([A-Z]{2}\.\d{2}\.\d{2})` within a line;
returns (digit group, code group). -/
def multiTokenMatch (l : List Char) : Option (List Char × List Char) :=
  let dRun := l.takeWhile Char.isDigit
  let tryK : Nat → Option (List Char × List Char) := fun k =>
    if k ≤ dRun.length then
      let rest := l.drop k
      let w1 := rest.takeWhile isPySpace
      if w1 = [] then none
      else
        match rest.drop w1.length with
        | '/' :: rest2 =>
          let w2 := rest2.takeWhile isPySpace
          if w2 = [] then none
          else
            match rest2.drop w2.length with
            | a :: b :: '.' :: d1 :: d2 :: '.' :: d3 :: d4 :: _ =>
              if a.isUpper && b.isUpper && d1.isDigit && d2.isDigit
                  && d3.isDigit && d4.isDigit then
                some (l.take k, [a, b, '.', d1, d2, '.', d3, d4])
              else none
            | _ => none
        | _ => none
    else none
  match tryK 3 with
  | some r => some r
  | none => tryK 2

/-- Search the multi-token pattern anywhere in a line. -/
def searchMultiToken (l : List Char) : Option (List Char × List Char) :=
  scanNoPrev multiTokenMatch l

/-- Candidates harvested from one early-header line (token scan plus the
multi-token pattern), with position-dependent confidences. -/
def scanCandidatesForLine (idx : Nat) (l : List Char) : List (List Char × Nat) :=
  if l = [] || (isLabelLine l).isSome then []
  else
    ((pySplitWs l).filterMap (fun token =>
      if tokenNomorShape token && !dateShaped token then
        some (pyStripChars ['.', ',', ';'] token, if idx < 8 then 70 else 60)
      else none))
    ++ (match searchMultiToken l with
        | some (g1, g2) => [(g1 ++ '/' :: g2, if idx < 8 then 75 else 65)]
        | none => [])

/-- `filename.rsplit(".", 1)[0]`. -/
def rsplitDotHead (name : List Char) : List Char :=
  if name.contains '.' then (dropWhileEnd (fun c => c ≠ '.') name).dropLast
  else name

/-- Filename-derived candidate (weight 50). -/
def filenameCandidates (filename : Option (List Char)) : List (List Char × Nat) :=
  match filename with
  | none => []
  | some f =>
    let name := rsplitDotHead f
    match pySplitWs name with
    | [] => []
    | t :: _ => if fileTokenShape t then [(pyStrip t, 50)] else []

/-- Label-block candidate value, after the code's re-validation (weight
100 when accepted). -/
def labelNomorValue (T : List Char) : Option (List Char) :=
  match lookupLabel (extractLabelBlockValues T) "nomor" with
  | none => none
  | some v =>
    let v1 := pyStripChars ['.', ',', ';', ':', ' ']
      (pyStrip (v.dropWhile (fun c => c = ':' || c = '-' || isPySpace c)))
    if v1.length > 3 && v1.any Char.isDigit
        && v1.any (fun c => c = '/' || c = '-' || c = '.') then
      some v1
    else none

/-- The unicode quote-to-space translation at the top of the extractors. -/
def quoteTranslate (l : List Char) : List Char :=
  l.map (fun c =>
    if c = Char.ofNat 0x2018 || c = Char.ofNat 0x2019 || c = Char.ofNat 0x201C
        || c = Char.ofNat 0x201D || c = btick || c = Char.ofNat 0xB4
        || c = Char.ofNat 0x2032 then ' '
    else c)

/-- The literal OCR-error pre-replacements of the extractors. -/
def preNomorReplacements : List (List Char × List Char) :=
  [ (['O', 'S', ' ', ' ', '/'], ['0', '5', ' ', '/'])
  , (['O', 'B', ' ', ' ', '/'], ['0', '8', ' ', '/'])
  , (['O', 'I', ' ', ' ', '/'], ['0', '1', ' ', '/'])
  , (['O', 'S', ' ', '/'], ['0', '5', ' ', '/'])
  , (['O', 'B', ' ', '/'], ['0', '8', ' ', '/'])
  , (['O', 'I', ' ', '/'], ['0', '1', ' ', '/']) ]

/-- Apply the pre-replacements in order. -/
def applyPreReplacements (l : List Char) : List Char :=
  preNomorReplacements.foldl (fun t p => pyReplace p.1 p.2 t) l

/-- Highest-confidence candidate, first-found winning ties (Python's
stable `sort(reverse=True)` followed by taking the head). -/
def pickBest (cands : List (List Char × Nat)) : Option (List Char) :=
  match cands with
  | [] => none
  | c :: rest => some ((rest.foldl (fun b x => if x.2 > b.2 then x else b) c).1)

/-- The weight-95 candidates from the direct label patterns. -/
def patternCandidates (T : List Char) : List (List Char × Nat) :=
  (nomorPatternSearches T).filterMap (fun r =>
    match r with
    | some v =>
      let nomor := cleanupNumSpace (pyStripChars ['.', ',', ';', ':', ' '] (pyStrip v))
      if nomor.length > 3 && !dateShaped nomor then some (nomor, 95) else none
    | none => none)

/-- The token/multi-token candidates from the first 15 lines. -/
def scanCandidates (T : List Char) : List (List Char × Nat) :=
  let lines := (pySplitlines T).map pyStrip
  (((lines.take 15).enum).map (fun p => scanCandidatesForLine p.1 p.2)).join

/-- `extract_nomor_surat` on character lists. -/
def extractNomorSuratL (text : List Char) (filename : Option (List Char)) :
    Option (List Char) :=
  let T := cleanL (applyPreReplacements (quoteTranslate text))
  let labelCands :=
    match labelNomorValue T with
    | some v => [(v, 100)]
    | none => []
  pickBest (labelCands ++ patternCandidates T ++ scanCandidates T
    ++ filenameCandidates filename)

/-- `extract_nomor_surat`. -/
def extractNomorSurat (text : String) (filename : Option String) : Option String :=
  (extractNomorSuratL text.data (filename.map String.data)).map (fun l => (⟨l⟩ : String))

/-! ### Date extraction (`extract_tanggal`, metadata.py) -/

/-- A calendar date as produced by Python `datetime`. -/
structure Dt where
  year : Nat
  month : Nat
  day : Nat
deriving DecidableEq, Repr

/-- Gregorian leap-year rule (as `datetime` uses). -/
def isLeapYear (y : Nat) : Bool :=
  y % 4 = 0 && (y % 100 ≠ 0 || y % 400 = 0)

/-- Days in a month. -/
def daysInMonth (y m : Nat) : Nat :=
  if m = 2 then (if isLeapYear y then 29 else 28)
  else if m = 4 || m = 6 || m = 9 || m = 11 then 30
  else 31

/-- `datetime(year, month, day)` with its `ValueError` modelled as `none`. -/
def mkDatetime (y m d : Nat) : Option Dt :=
  if 1 ≤ m && m ≤ 12 && 1 ≤ d && d ≤ daysInMonth y m then some ⟨y, m, d⟩
  else none

/-- Numeric value of a digit string. -/
def digitsToNat (l : List Char) : Nat :=
  l.foldl (fun n c => n * 10 + (c.toNat - 48)) 0

/-- `BULAN_ID` of metadata.py (Indonesian month names, lowercase). -/
def bulanId (name : List Char) : Option Nat :=
  (([ ("januari", 1), ("februari", 2), ("maret", 3), ("april", 4)
    , ("mei", 5), ("juni", 6), ("juli", 7), ("agustus", 8)
    , ("september", 9), ("oktober", 10), ("november", 11), ("desember", 12) ]
      : List (String × Nat)).find? (fun p => p.1.data = name)).map (fun p => p.2)

/-- English month names as produced by `strftime("%B")` in the C locale
(the service sets no locale). -/
def monthNameEn (m : Nat) : String :=
  ([ "January", "February", "March", "April", "May", "June", "July"
   , "August", "September", "October", "November", "December"
   ] : List String).getD (m - 1) ""

/-- Two-digit zero-padded day (`%d`). -/
def pad2 (n : Nat) : String :=
  if n < 10 then "0" ++ toString n else toString n

/-- `strftime("%d %B %Y")`. -/
def formatDMY (d : Dt) : String :=
  pad2 d.day ++ " " ++ monthNameEn d.month ++ " " ++ toString d.year

/-- The `\s+([A-Za-z]+)\s+(20\d{2})` tail shared by the Indonesian date
patterns: returns (month name, year). -/
def dateTailMonthYear (rest : List Char) : Option (List Char × Nat) :=
  let w1 := rest.takeWhile isPySpace
  if w1 = [] then none
  else
    let rest1 := rest.drop w1.length
    let letters := rest1.takeWhile Char.isAlpha
    if letters = [] then none
    else
      let rest2 := rest1.drop letters.length
      let w2 := rest2.takeWhile isPySpace
      if w2 = [] then none
      else
        match rest2.drop w2.length with
        | '2' :: '0' :: d3 :: d4 :: _ =>
          if d3.isDigit && d4.isDigit then
            some (letters, digitsToNat ['2', '0', d3, d4])
          else none
        | _ => none

/-- Matcher for `(\d{1,2})\s+([A-Za-z]+)\s+(20\d{2})`: (day, month name,
year). -/
def matchDate1 (l : List Char) : Option (Nat × List Char × Nat) :=
  let tryK : Nat → Option (Nat × List Char × Nat) := fun k =>
    let d := l.take k
    if d.length = k && d.all Char.isDigit then
      match dateTailMonthYear (l.drop k) with
      | some (mon, y) => some (digitsToNat d, mon, y)
      | none => none
    else none
  match tryK 2 with
  | some r => some r
  | none => tryK 1

/-- Matcher for the numeric date pattern: `\b`, one or two digits, a
dash-or-slash, one or two digits, a dash-or-slash, `20` and two digits,
`\b`.  Returns (day, month, year). -/
def matchDate2 (prev : Option Char) (l : List Char) : Option (Nat × Nat × Nat) :=
  if !wordStartOk prev then none
  else
    let trySecond : List Char → Nat → Option (Nat × Nat) := fun rest k =>
      let d2 := rest.take k
      if d2.length = k && d2.all Char.isDigit then
        match rest.drop k with
        | sep2 :: '2' :: '0' :: d3 :: d4 :: after =>
          if (sep2 = '-' || sep2 = '/') && d3.isDigit && d4.isDigit
              && boundaryAfter d4 after.head? then
            some (digitsToNat d2, digitsToNat ['2', '0', d3, d4])
          else none
        | _ => none
      else none
    let tryFirst : Nat → Option (Nat × Nat × Nat) := fun k =>
      let d1 := l.take k
      if d1.length = k && d1.all Char.isDigit then
        match l.drop k with
        | sep1 :: rest =>
          if sep1 = '-' || sep1 = '/' then
            match trySecond rest 2 with
            | some (m, y) => some (digitsToNat d1, m, y)
            | none =>
              match trySecond rest 1 with
              | some (m, y) => some (digitsToNat d1, m, y)
              | none => none
          else none
        | [] => none
      else none
    match tryFirst 2 with
    | some r => some r
    | none => tryFirst 1

/-- Matcher for
`\b(Tanggal|Tgl)\b\s*[:.]?\s*(\d{1,2})\s+([A-Za-z]+)\s+(20\d{2})`. -/
def matchDate3 (prev : Option Char) (l : List Char) : Option (Nat × List Char × Nat) :=
  if !wordStartOk prev then none
  else
    firstSomeList
      (fun a =>
        if ciPrefix a.data l
            && boundaryAfter ((a.data.getLast?).getD ' ') ((l.drop a.data.length).head?) then
          firstSomeList matchDate1 (gapRemainders (l.drop a.data.length))
        else none)
      ["Tanggal", "Tgl"]

/-- Matcher for `\b(20\d{2})\b`. -/
def matchDate4 (prev : Option Char) (l : List Char) : Option Nat :=
  if !wordStartOk prev then none
  else
    match l with
    | '2' :: '0' :: d3 :: d4 :: after =>
      if d3.isDigit && d4.isDigit && boundaryAfter d4 after.head? then
        some (digitsToNat ['2', '0', d3, d4])
      else none
    | _ => none

/-- `extract_tanggal` on character lists. -/
def extractTanggalL (text : List Char) : Option Dt :=
  let T := cleanL text
  let r1 : Option Dt :=
    match scanNoPrev matchDate1 T with
    | some (dayN, monName, yearN) =>
      match bulanId (lcL monName) with
      | some m => mkDatetime yearN m dayN
      | none => none
    | none => none
  match r1 with
  | some dt => some dt
  | none =>
    let r2 : Option Dt :=
      match searchPattern matchDate2 T with
      | some (dayN, monN, yearN) => mkDatetime yearN monN dayN
      | none => none
    match r2 with
    | some dt => some dt
    | none =>
      let r3 : Option Dt :=
        match searchPattern matchDate3 T with
        | some (dayN, monName, yearN) =>
          match bulanId (lcL monName) with
          | some m => mkDatetime yearN m dayN
          | none => none
        | none => none
      match r3 with
      | some dt => some dt
      | none => (searchPattern matchDate4 T).map (fun y => ⟨y, 1, 1⟩)

/-- `extract_tanggal`. -/
def extractTanggal (text : String) : Option Dt :=
  extractTanggalL text.data

/-! ### Type classification (`detect_jenis`, metadata.py) -/

/-- Non-letter document keywords checked in the first 500 characters. -/
def lainnyaKeywords : List String :=
  ["PAPARAN", "BUKU PANDUAN", "PANDUAN", "PRESENTASI", "HANDBOOK"
  , "GUIDE BOOK", "MANUAL", "MODUL"]

/-- Sender-letterhead markers for the home institution. -/
def kopPatterns : List String :=
  ["KELURAHAN PELA MAMPANG", "BANGKA X UJUNG", "PELAMAMAMPANGKELURAHAN"
  , "718 2380", "7182380"]

/-- Tail of the nomor-label presence regex after the label word:
`\s*[:=.\-]*\s*[A-Za-z0-9]`. -/
def nomorLabelTail (t : List Char) : Bool :=
  let t1 := t.dropWhile isPySpace
  let t2 := t1.dropWhile (fun c => c = ':' || c = '=' || c = '.' || c = '-')
  let t3 := t2.dropWhile isPySpace
  (t3.head?).elim false isAlnumChar

/-- Matcher for `\b(Nomor|No)\b\s*[:=.\-]*\s*[A-Za-z0-9]` (IGNORECASE). -/
def matchHasNomorLabel (prev : Option Char) (l : List Char) : Option Unit :=
  if !wordStartOk prev then none
  else if (["Nomor", "No"] : List String).any (fun a =>
      ciPrefix a.data l
        && boundaryAfter ((a.data.getLast?).getD ' ') ((l.drop a.data.length).head?)
        && nomorLabelTail (l.drop a.data.length)) then
    some ()
  else none

/-- Presence of a nomor label in the cleaned text. -/
def hasNomorLabel (T : List Char) : Bool :=
  (searchPattern matchHasNomorLabel T).isSome

/-- After a `lurah`/`kelurahan` occurrence: a gap of at most 20 characters
followed by `pela\s+mampang`. -/
def recipientTailFrom (u : List Char) : Bool :=
  let checkAfter : List Char → Bool := fun v =>
    (List.range 21).any (fun g =>
      let w := v.drop g
      if ("pela".data).isPrefixOf w then
        let rest := w.drop 4
        let ws := rest.takeWhile isPySpace
        ws ≠ [] && ("mampang".data).isPrefixOf (rest.drop ws.length)
      else false)
  (("lurah".data).isPrefixOf u && checkAfter (u.drop 5))
    || (("kelurahan".data).isPrefixOf u && checkAfter (u.drop 9))

/-- Scan for `(kepada|yth).{0,50}(lurah|kelurahan).{0,20}pela\s+mampang`
(IGNORECASE, DOTALL) on an already-lowercased text. -/
def recipientScan : List Char → Bool
  | [] => false
  | c :: cs =>
    ((if ("kepada".data).isPrefixOf (c :: cs) then
        (List.range 51).any (fun g => recipientTailFrom (((c :: cs).drop 6).drop g))
      else false)
      || (if ("yth".data).isPrefixOf (c :: cs) then
        (List.range 51).any (fun g => recipientTailFrom (((c :: cs).drop 3).drop g))
      else false))
    || recipientScan cs

/-- Whether the first 1000 characters name the home institution as the
letter recipient. -/
def isRecipientPelaMampang (T : List Char) : Bool :=
  recipientScan (lcL (T.take 1000))

/-- Delimiters of the SM/SK token patterns. -/
def smDelim (c : Char) : Bool :=
  c = '/' || c = '-' || c = '_'

/-- Scan for `(?:^|/|[-_])<tok>(?:/|[-_]|$)` on a lowercased text. -/
def smScan (tok : List Char) : Option Char → List Char → Bool
  | _, [] => false
  | prev, c :: cs =>
    ((match prev with | none => true | some p => smDelim p)
      && tok.isPrefixOf (c :: cs)
      && (match (c :: cs).drop tok.length with
          | [] => true
          | d :: _ => smDelim d))
    || smScan tok (some c) cs

/-- `re.search(r"(?i)(?:^|/|[-_])SM(?:/|[-_]|$)", s)` and its SK variant. -/
def hasSmToken (tok : String) (s : List Char) : Bool :=
  smScan tok.data none (lcL s)

/-- Word search `\b<word>\b` (IGNORECASE). -/
def wordScan (w : List Char) : Option Char → List Char → Bool
  | _, [] => false
  | prev, c :: cs =>
    (wordStartOk prev && ciPrefix w (c :: cs)
      && boundaryAfter ((w.getLast?).getD ' ') (((c :: cs).drop w.length).head?))
    || wordScan w (some c) cs

/-- `re.search(r"(?i)\b<word>\b", s)`. -/
def hasWord (w : String) (s : List Char) : Bool :=
  wordScan w.data none s

/-- `^\d{1,3}` then dash-or-slash then two capitals, a period and a digit
(the internal outgoing-nomor shape). -/
def nomorPatKeluar1 (n : List Char) : Bool :=
  let d := n.takeWhile Char.isDigit
  1 ≤ d.length && d.length ≤ 3 &&
    (match n.drop d.length with
     | sep :: a :: b :: '.' :: e :: _ =>
       (sep = '-' || sep = '/') && a.isUpper && b.isUpper && e.isDigit
     | _ => false)

/-- `^\d{1,3}/\d{2}/\d{2}` (multi-segment outgoing-nomor shape). -/
def nomorPatKeluar2 (n : List Char) : Bool :=
  let d := n.takeWhile Char.isDigit
  1 ≤ d.length && d.length ≤ 3 &&
    (match n.drop d.length with
     | '/' :: a :: b :: '/' :: e :: f :: _ =>
       a.isDigit && b.isDigit && e.isDigit && f.isDigit
     | _ => false)

/-- `detect_jenis` on character lists; `mlc` is the optional statistical
classifier collaborator (`classify`), with a raised exception modelled as
`none`. -/
def detectJenisL (mlc : List Char → Option (String × ℚ)) (text : List Char)
    (nomor : Option (List Char)) (filename : Option (List Char)) :
    String × ℚ × String :=
  let T := cleanL text
  let lines := (pySplitlines T).take 30
  let headerText := ucL (joinSpace lines)
  let first500 := ucL (T.take 500)
  if lainnyaKeywords.any (fun kw => containsSub kw.data first500) then
    ("lainnya", mkRat 9 10, "non-letter-keywords")
  else if !hasNomorLabel T then
    ("lainnya", mkRat 17 20, "no-nomor-label")
  else
    let header10 := ucL (joinSpace (lines.take 10))
    let hasKop := kopPatterns.any (fun p => containsSub p.data header10)
      || (containsSub ("PELA MAMPANG".data) header10
          && containsSub ("MAMPANG PRAPATAN".data) header10)
    let isRecip := isRecipientPelaMampang T
    if hasKop && !isRecip then ("keluar", mkRat 19 20, "kop-pela-mampang")
    else if isRecip then ("masuk", mkRat 19 20, "recipient-pela-mampang")
    else if (match nomor with
             | some n => n ≠ [] && nomorPatKeluar1 n
             | none => false) then
      ("keluar", mkRat 9 10, "nomor-pattern-keluar")
    else if (match nomor with
             | some n => n ≠ [] && nomorPatKeluar2 n
             | none => false) then
      ("keluar", mkRat 9 10, "nomor-pattern-keluar")
    else if (match nomor with
             | some n => n ≠ [] && hasSmToken "sm" n
             | none => false) then
      ("masuk", mkRat 9 10, "nomor-pattern-SM")
    else if containsSub ("PEMERINTAH".data) headerText && !hasKop then
      (if containsSub ("KEPADA".data) headerText
          && (containsSub ("YTH".data) headerText
              || containsSub ("YANG TERHORMAT".data) headerText) then
        (if isRecip then ("masuk", mkRat 19 20, "pemerintah-to-pela-mampang")
         else ("keluar", mkRat 4 5, "kepada-yth-pattern"))
       else ("masuk", mkRat 17 20, "pemerintah-header"))
    else if containsSub ("KEMENTERIAN".data) headerText
        || containsSub ("DEWAN".data) headerText
        || containsSub ("PT.".data) headerText then
      ("masuk", mkRat 17 20, "external-institution")
    else
      let fromFile : Option (String × ℚ × String) :=
        match filename with
        | none => none
        | some f =>
          let name := rsplitDotHead f
          if hasSmToken "sm" name || hasWord "masuk" name then
            some ("masuk", (mkRat 7 10 : ℚ), "filename-hint")
          else if hasSmToken "sk" name || hasWord "keluar" name then
            some ("keluar", (mkRat 7 10 : ℚ), "filename-hint")
          else none
      match fromFile with
      | some r => r
      | none =>
        let fromMl : Option (String × ℚ × String) :=
          if (pyStrip text).length > 50 then
            match mlc text with
            | some (j, c) => if c > mkRat 4 5 then some (j, c, "ml-classifier") else none
            | none => none
          else none
        match fromMl with
        | some r => r
        | none => ("lainnya", mkRat 3 5, "default-fallback")

/-- `detect_jenis`. -/
def detectJenis (mlc : String → Option (String × ℚ)) (text : String)
    (nomor : Option String) (filename : Option String) : String × ℚ × String :=
  detectJenisL (fun l => mlc (⟨l⟩ : String)) text.data (nomor.map String.data)
    (filename.map String.data)

/-! ### Subject extraction (`extract_perihal`, metadata.py) -/

/-- `HEADER_KEYWORDS` of metadata.py. -/
def headerKeywords : List String :=
  [ "PEMERINTAH", "DINAS", "KELURAHAN", "KECAMATAN", "KOTA", "KEMENTERIAN"
  , "BADAN", "DEWAN", "SEKRETARIAT", "PT", "CV", "YAYASAN" ]

/-- Header indicators counted by the perihal sanitiser. -/
def headerIndicators : List String :=
  [ "PEMERINTAH", "PROVINSI", "DAERAH", "KHUSUS", "IBUKOTA", "KOTA"
  , "ADMINISTRASI", "KECAMATAN", "KELURAHAN", "DINAS", "KEMENTERIAN"
  , "REPUBLIK" ]

/-- Words removed from the end of a perihal value. -/
def trailingNoiseWords : List String :=
  ["kebakaran", "di", "jakarta", "tanggal", "nomor"]

/-- Matcher for the OCR-noise registration-number shape rejected by the
perihal sanitiser: `\b`, `O` or `0`, one of `S5IB` or a digit, optional
quote, a slash and a two-letter dotted code (IGNORECASE). -/
def matchOcrNomorNoise (prev : Option Char) (l : List Char) : Option Unit :=
  if !wordStartOk prev then none
  else
    match l with
    | c1 :: c2 :: rest =>
      if (c1.toLower = 'o' || c1 = '0')
          && (c2.isDigit || c2.toLower = 's' || c2.toLower = 'i' || c2.toLower = 'b') then
        let r1 := rest.dropWhile isPySpace
        let r2 :=
          match r1 with
          | q :: t => if q = apos || q = dquote || q = btick then t.dropWhile isPySpace else r1
          | [] => r1
        match r2 with
        | '/' :: r3 =>
          match r3.dropWhile isPySpace with
          | a :: b :: '.' :: r5 =>
            if a.isAlpha && b.isAlpha
                && r5.takeWhile (fun c => c.isDigit || c = '.') ≠ [] then
              some ()
            else none
          | _ => none
        | _ => none
      else none
    | _ => none

/-- Prefix match of the nomor-plus-date shape rejected by the perihal
sanitiser: two or three digits, a slash, an uppercase dotted code, then a
day number, a word and a four-digit year. -/
def perihalNomorTanggalPrefix (s : List Char) : Bool :=
  let d := s.takeWhile Char.isDigit
  (2 ≤ d.length && d.length ≤ 3) &&
    (match (s.drop d.length).dropWhile isPySpace with
     | '/' :: r2 =>
       match r2.dropWhile isPySpace with
       | a :: b :: '.' :: r4 =>
         a.isUpper && b.isUpper &&
           (let dd := r4.takeWhile (fun c => c.isDigit || c = '.')
            dd ≠ [] &&
              (let r5 := r4.drop dd.length
               let w1 := r5.takeWhile isPySpace
               w1 ≠ [] &&
                 (let r6 := r5.drop w1.length
                  let d2 := r6.takeWhile Char.isDigit
                  (1 ≤ d2.length && d2.length ≤ 2) &&
                    (let r7 := r6.drop d2.length
                     let w2 := r7.takeWhile isPySpace
                     w2 ≠ [] &&
                       (let r8 := r7.drop w2.length
                        let wrd := r8.takeWhile isWordChar
                        wrd ≠ [] &&
                          (let r9 := r8.drop wrd.length
                           let w3 := r9.takeWhile isPySpace
                           w3 ≠ [] &&
                             (let r10 := r9.drop w3.length
                              (r10.take 4).length = 4
                                && (r10.take 4).all Char.isDigit)))))))
       | _ => false
     | _ => false)

/-- Prefix of the text before the first match of a boolean matcher, or
`none` when there is no match (used for `re.split(pat, s)[0]`). -/
def splitBeforeScan (m : Option Char → List Char → Bool) :
    Option Char → List Char → Option (List Char)
  | _, [] => none
  | prev, c :: cs =>
    if m prev (c :: cs) then some []
    else (splitBeforeScan m (some c) cs).map (fun r => c :: r)

/-- Matcher for `\bYth\.` (IGNORECASE). -/
def matchYthDot (prev : Option Char) (l : List Char) : Bool :=
  wordStartOk prev && ciPrefix ("yth".data) l && (l.drop 3).head? = some '.'

/-- Matcher for `\bKepada\b` (IGNORECASE). -/
def matchKepadaWord (prev : Option Char) (l : List Char) : Bool :=
  wordStartOk prev && ciPrefix ("kepada".data) l
    && boundaryAfter 'a' ((l.drop 6).head?)

/-- The `Yth.`/`Kepada` truncation loop of the perihal sanitiser. -/
def ythKepadaCut (cleaned : List Char) : List Char :=
  let step : (Option Char → List Char → Bool) → Option (List Char) := fun m =>
    let s0 := (splitBeforeScan m none cleaned).getD cleaned
    if 3 ≤ (pyStrip s0).length then some (pyStripChars [' ', ',', '.', ';'] s0)
    else none
  match step matchYthDot with
  | some r => r
  | none =>
    match step matchKepadaWord with
    | some r => r
    | none => cleaned

/-- Removal of a trailing noise word (with its preceding whitespace) from
the end of a perihal value. -/
def removeTrailingNoise (cleaned : List Char) : List Char :=
  let base := dropWhileEnd isPySpace cleaned
  match trailingNoiseWords.find? (fun w =>
      w.data.isSuffixOf (lcL base)
        && ((base.take (base.length - w.data.length)).getLast?).elim false isPySpace) with
  | some w => dropWhileEnd isPySpace (base.take (base.length - w.data.length))
  | none => cleaned

/-- Full match of the date shape rejected by the perihal sanitiser: one or
two digits, a dash-slash-or-space separator, a word, a separator, and two
to four digits. -/
def sanitizeDateShape (s : List Char) : Bool :=
  let d1 := s.takeWhile Char.isDigit
  (1 ≤ d1.length && d1.length ≤ 2) &&
    (match s.drop d1.length with
     | sep1 :: rest =>
       (sep1 = '-' || sep1 = '/' || isPySpace sep1) &&
         (List.range rest.length).any (fun i =>
           let w := rest.take (i + 1)
           w.all isWordChar &&
             (match rest.drop (i + 1) with
              | sep2 :: d3 =>
                (sep2 = '-' || sep2 = '/' || isPySpace sep2)
                  && d3 ≠ [] && d3.all Char.isDigit
                  && 2 ≤ d3.length && d3.length ≤ 4
              | [] => false))
     | [] => false)

/-- `_sanitize_perihal` of `extract_perihal`. -/
def sanitizePerihal (value : List Char) : Option (List Char) :=
  if value = [] then none
  else
    let cleaned0 := pyLStripChars [':', '-', ' '] (pyStrip value)
    if (searchPattern matchOcrNomorNoise cleaned0).isSome then none
    else if perihalNomorTanggalPrefix cleaned0 then none
    else
      let cleaned1 := ythKepadaCut cleaned0
      let cleaned2 := pyStrip (removeTrailingNoise cleaned1)
      let upper := ucL cleaned2
      if 3 ≤ (headerIndicators.filter (fun k => containsSub k.data upper)).length then none
      else if headerKeywords.any (fun k => k.data = ucL cleaned2) then none
      else if cleaned2.length < 5 || pyIsDigit cleaned2 then none
      else if sanitizeDateShape cleaned2 then none
      else if pyIsUpper cleaned2 && 40 < cleaned2.length then none
      else some cleaned2

/-- Matcher for `\b(Hal|Perihal)\b` (IGNORECASE), returning the text
after the matched label. -/
def matchHalToken (prev : Option Char) (l : List Char) : Option (List Char) :=
  if !wordStartOk prev then none
  else
    firstSomeList
      (fun a =>
        if ciPrefix a.data l
            && boundaryAfter ((a.data.getLast?).getD ' ') ((l.drop a.data.length).head?) then
          some (l.drop a.data.length)
        else none)
      ["Hal", "Perihal"]

/-- Multi-line collection loop of the direct `Hal`/`Perihal` strategy. -/
def collectHalLines : List (List Char) → List (List Char) → List (List Char)
  | [], collected => collected.reverse
  | ln :: rest, collected =>
    let l := pyStrip ln
    if l = [] then
      (if collected ≠ [] then collected.reverse else collectHalLines rest collected)
    else if (isLabelLine l).isSome then collected.reverse
    else if startsRecipientMarker l then collected.reverse
    else collectHalLines rest (l :: collected)

/-- Subject-opening keywords of the middle-section scan. -/
def perihalKeywords : List String :=
  [ "Permohonan", "Balasan", "Undangan", "Disposisi", "Pemberitahuan"
  , "Pengajuan", "Laporan", "Penyampaian", "Permintaan" ]

/-- `extract_perihal` on character lists.  The filename fallback assumes
filenames contain no newline, as the dot in `(.+)$` does not match one. -/
def extractPerihalL (text : List Char) (filename : Option (List Char)) :
    Option (List Char) :=
  let T := cleanL (applyPreReplacements (quoteTranslate text))
  let labelValues := extractLabelBlockValues T
  let p1 : Option (List Char) :=
    match lookupLabel labelValues "perihal" with
    | some v => sanitizePerihal v
    | none => none
  match p1 with
  | some r => some r
  | none =>
    let p2 : Option (List Char) :=
      match searchPattern matchHalToken T with
      | some afterLabel =>
        let remainder := pyLStripChars [' ', '\t', '\x0d', '\n', ':', '-'] afterLabel
        let collected := collectHalLines ((pySplitlines remainder).take 10) []
        if collected ≠ [] then sanitizePerihal (joinSpace collected) else none
      | none => none
    match p2 with
    | some r => some r
    | none =>
      let p3 : Option (List Char) :=
        firstSomeList
          (fun l =>
            if perihalKeywords.any (fun k => hasWord k l) then
              match sanitizePerihal (pyStrip l) with
              | some sv => if 10 < sv.length then some sv else none
              | none => none
            else none)
          (((pySplitlines T).drop 5).take 35)
      match p3 with
      | some r => some r
      | none =>
        match filename with
        | none => none
        | some f =>
          let name := rsplitDotHead f
          let t1 := name.dropWhile isPySpace
          let tok := t1.takeWhile isNomorValChar
          if tok = [] then none
          else
            let rest := t1.drop tok.length
            let w := rest.takeWhile isPySpace
            if w = [] then none
            else
              let body := rest.drop w.length
              if body ≠ [] && !body.contains '\n' then
                let cand := pyStrip body
                if 3 < cand.length then some cand else none
              else none

/-- `extract_perihal`. -/
def extractPerihal (text : String) (filename : Option String) : Option String :=
  (extractPerihalL text.data (filename.map String.data)).map (fun l => (⟨l⟩ : String))

/-! ### `parse_metadata` (metadata.py) -/

/-- The extraction-statistics block of the parsed record. -/
structure ExtractionStats where
  fields_extracted : Nat
  total_fields : Nat
  text_length : Nat
  jenis_confidence : ℚ
  jenis_method : String
deriving DecidableEq, Repr

/-- The engine output record.  The Python dictionary omits the `perihal`
key entirely for outgoing letters; absence is modelled as `none`. -/
structure ParsedMetadata where
  nomor : Option String
  tanggal_surat : Option String
  tahun : Option Nat
  jenis : String
  jenis_confidence : ℚ
  jenis_method : String
  perihal : Option String
  stats : ExtractionStats
deriving DecidableEq, Repr

/-- Python `bool` of an optional string (absent or empty is falsy). -/
def optStrTruthy (o : Option String) : Bool :=
  match o with
  | some s => s ≠ ""
  | none => false

/-- `1` for a truthy value (`sum([bool(...), ...])`). -/
def b2n (b : Bool) : Nat := if b then 1 else 0

/-- `parse_metadata`.  `mlc` is the statistical-classifier collaborator;
the `uploaded_at` argument of the Python function is unused by it and
omitted. -/
def parseMetadata (mlc : String → Option (String × ℚ)) (text : String)
    (filename : Option String) : ParsedMetadata :=
  let nomor := extractNomorSurat text filename
  let dt := extractTanggalL text.data
  let tanggalStr : Option String :=
    match dt with
    | some d => if d.day ≠ 1 then some (formatDMY d) else some (toString d.year)
    | none => none
  let tahun := dt.map (fun d => d.year)
  let jcm := detectJenis mlc text nomor filename
  let jenis := jcm.1
  let perihal : Option String :=
    if jenis ≠ "keluar" then extractPerihal text filename else none
  { nomor := nomor
  , tanggal_surat := tanggalStr
  , tahun := tahun
  , jenis := jenis
  , jenis_confidence := jcm.2.1
  , jenis_method := jcm.2.2
  , perihal := perihal
  , stats :=
    { fields_extracted :=
        b2n (optStrTruthy nomor)
          + b2n (if jenis ≠ "keluar" then optStrTruthy perihal else false)
          + b2n (optStrTruthy tanggalStr)
          + b2n (tahun.elim false (fun y => y ≠ 0))
          + b2n (jenis ≠ "")
    , total_fields := 5
    , text_length := text.data.length
    , jenis_confidence := jcm.2.1
    , jenis_method := jcm.2.2 } }

/-! ### Quality scoring, jenis finalisation and foldering (upload.py) -/

/-- The parsed-record fields read by the quality scorer
(`parsed.get(...)` in `upload_document`). -/
structure QualityInput where
  nomor : Option String
  tanggal_surat : Option String
  tahun : Option Int
  jenis : Option String
  perihal : Option String
deriving DecidableEq, Repr

/-- Python `bool` of an optional integer. -/
def optIntTruthy (o : Option Int) : Bool :=
  o.elim false (fun y => y ≠ 0)

/-- One field check of the quality loop: add the weight on success, append
the warning on failure. -/
def addCheck (acc : Nat × List String) (pass : Bool) (weight : Nat)
    (warning : String) : Nat × List String :=
  if pass then (acc.1 + weight, acc.2) else (acc.1, acc.2 ++ [warning])

/-- The four weighted field checks of `upload_document`, in order. -/
def qualityFieldPhase (p : QualityInput) : Nat × List String :=
  let s0 := addCheck (0, []) (optStrTruthy p.nomor && p.nomor ≠ some "TANPA-NOMOR")
    30 "Nomor surat tidak terdeteksi"
  let s1 := addCheck s0 (optStrTruthy p.tanggal_surat) 20 "Tanggal surat tidak terdeteksi"
  let s2 := addCheck s1 (optIntTruthy p.tahun) 10 "Tahun tidak terdeteksi"
  addCheck s2 (optStrTruthy p.jenis) 10 "Jenis surat tidak terdeteksi"

/-- The warning recorded when an outgoing letter has no subject. -/
def subjectWarning : String :=
  "Perihal tidak terdeteksi (wajib untuk surat keluar)"

/-- The field checks followed by the conditional perihal check: required
(+25) for `keluar`, optional bonus (+15) otherwise.  This is the score
before any text-length or OCR penalty. -/
def qualityWithPerihal (p : QualityInput) : Nat × List String :=
  let base := qualityFieldPhase p
  let hasPerihal := optStrTruthy p.perihal && p.perihal ≠ some "Tidak ada perihal"
  if p.jenis = some "keluar" then
    (if hasPerihal then (base.1 + 25, base.2) else (base.1, base.2 ++ [subjectWarning]))
  else
    (if hasPerihal then (base.1 + 15, base.2) else base)

/-- The OCR-rate warning (the numeric rendering is Lean's, the claim set
never inspects this string). -/
def ocrRateWarning (r : ℚ) : String :=
  "OCR success rate rendah (" ++ toString r ++ "%)"

/-- The full quality assessment including the text-length and OCR
penalties.  Natural-number subtraction models the `max(0, score - k)`
floors exactly.  `ocrStats` is `none` when no stats dict exists; the inner
option is the `success_rate` key (defaulted to 0 by `.get`). -/
def qualityFull (p : QualityInput) (textLength : Nat) (ocrUsed : Bool)
    (ocrStats : Option (Option ℚ)) : Nat × List String :=
  let q1 := qualityWithPerihal p
  let q2 :=
    if textLength < 100 then
      (q1.1 - 15, q1.2 ++ ["Teks terekstrak sangat pendek (kualitas OCR buruk)"])
    else if ocrUsed && textLength < 300 then
      (q1.1 - 5, q1.2 ++ ["Teks hasil OCR kurang lengkap"])
    else q1
  if ocrUsed && ocrStats.isSome then
    (let r := (ocrStats.getD none).getD 0
     if r < 50 then (q2.1 - 10, q2.2 ++ [ocrRateWarning r]) else q2)
  else q2

/-- The jenis finalisation block of `upload_document`: the `None` fallback
by nomor pattern, then the whitelist validation that replaces any label
outside the three allowed ones. -/
def jenisFinalize (parsedJenis : Option String) (parsedConf : ℚ)
    (parsedMethod : String) (nomorFinal : String) : String × ℚ × String :=
  let jcm : String × ℚ × String :=
    match parsedJenis with
    | some j => (j, parsedConf, parsedMethod)
    | none =>
      if hasSmToken "sm" nomorFinal.data then ("masuk", (mkRat 3 4 : ℚ), "nomor-pattern")
      else if hasSmToken "sk" nomorFinal.data then ("keluar", (mkRat 3 4 : ℚ), "nomor-pattern")
      else ("masuk", (mkRat 1 2 : ℚ), "default-fallback")
  if jcm.1 = "masuk" || jcm.1 = "keluar" || jcm.1 = "lainnya" then jcm
  else ("masuk", (mkRat 1 2 : ℚ), "invalid-fallback")

/-- The folder-path conditional of `upload_document`: the storage path
segments below the storage root. -/
def resolvePath (tahun : Option Int) (jenis : String) (bulan : Option String)
    (slug : String) : List String :=
  if optIntTruthy tahun && optStrTruthy bulan then
    [toString (tahun.getD 0), jenis, bulan.getD "", slug]
  else if optIntTruthy tahun then
    [toString (tahun.getD 0), jenis, slug]
  else
    [jenis, slug]

/-! ### The OCR page pipeline (`ocr_pdf_to_text`, ocr.py) -/

/-- The outcome of one page's external calls: rendering (`get_pixmap`),
the temp-file/image-processing block before recognition, and the two
recognition attempts (primary language, then the default model). -/
structure PageOutcome where
  render : Except String Unit
  procFail : Bool
  primary : Except String String
  fallbackOcr : Except String String
deriving Repr

/-- The per-run OCR statistics. -/
structure OcrStats where
  total_pages : Nat
  success_pages : Nat
  failed_pages : Nat
  total_chars : Nat
  dpi : Nat
  language : String
  method : String
  success_rate : ℚ
deriving DecidableEq, Repr

/-- The recognition step of one page: the text and
`bool(txt and txt.strip())`. -/
def pageRecognition (p : PageOutcome) : String × Bool :=
  match p.primary with
  | Except.ok t => (t, pyStrip t.data ≠ [])
  | Except.error _ =>
    match p.fallbackOcr with
    | Except.ok t => (t, pyStrip t.data ≠ [])
    | Except.error _ => ("", false)

/-- One iteration of the page loop: accumulate (text chunks, success
count, failure count) as the code does. -/
def stepPage (acc : List String × Nat × Nat) (p : PageOutcome) :
    List String × Nat × Nat :=
  match p.render with
  | Except.error _ => (acc.1, acc.2.1, acc.2.2 + 1)
  | Except.ok _ =>
    if p.procFail then (acc.1 ++ [""], acc.2.1, acc.2.2)
    else
      let r := pageRecognition p
      (acc.1 ++ [r.1],
       if r.2 then acc.2.1 + 1 else acc.2.1,
       if r.2 then acc.2.2 else acc.2.2 + 1)

/-- Python `round` (banker's rounding) on rationals. -/
def roundHalfEvenZ (q : ℚ) : ℤ :=
  let f := ⌊q⌋
  let r := q - f
  if r < 1 / 2 then f
  else if 1 / 2 < r then f + 1
  else if f % 2 = 0 then f else f + 1

/-- `round(x, 1)` on rationals. -/
def roundTo1 (q : ℚ) : ℚ :=
  (roundHalfEvenZ (q * 10) : ℚ) / 10

/-- The chunk filter of the final aggregation (`t and t.strip()`). -/
def chunkKept (t : String) : Bool :=
  t ≠ "" && pyStrip t.data ≠ []

/-- `ocr_pdf_to_text` given an opened document's page outcomes.  The
returned text is the stripped newline-join of the kept chunks;
`total_chars` is measured before the final strip, as in the code. -/
def ocrPdfToText (lang : String) (dpi : Nat) (pages : List PageOutcome) :
    String × OcrStats :=
  let acc := pages.foldl stepPage ([], 0, 0)
  let joined := String.intercalate "\n" (acc.1.filter chunkKept)
  (⟨pyStrip joined.data⟩,
   { total_pages := pages.length
   , success_pages := acc.2.1
   , failed_pages := acc.2.2
   , total_chars := joined.data.length
   , dpi := dpi
   , language := lang
   , method := "PyMuPDF + Pytesseract"
   , success_rate :=
       if 0 < pages.length then roundTo1 ((acc.2.1 : ℚ) * 100 / pages.length) else 0 })

/-- A page whose rendering raises, or whose recognition raises on both
attempts (after a successful render and processing). -/
def pageRaises (p : PageOutcome) : Bool :=
  (match p.render with | Except.error _ => true | Except.ok _ => false)
    || ((match p.render with | Except.ok _ => true | Except.error _ => false)
        && !p.procFail
        && (match p.primary with | Except.error _ => true | Except.ok _ => false)
        && (match p.fallbackOcr with | Except.error _ => true | Except.ok _ => false))

/-- A page counted in `failed_pages` by the loop. -/
def pageFailedB (p : PageOutcome) : Bool :=
  match p.render with
  | Except.error _ => true
  | Except.ok _ => !p.procFail && !(pageRecognition p).2

/-- The page's contribution to the text aggregation (empty for every
raising page). -/
def pageAggText (p : PageOutcome) : String :=
  match p.render with
  | Except.error _ => ""
  | Except.ok _ => if p.procFail then "" else (pageRecognition p).1

/-! ### Support definitions for the verification statements -/

/-- The statistical-classifier collaborator in the unavailable / raising
configuration (a supported deployment of the cascade). -/
def mlUnavailable : String → Option (String × ℚ) := fun _ => none

/-- The end-to-end scenario text of the specification. -/
def c1Text : String :=
  "Nomor: 12/AB.01.02\nTanggal: 5 Mei 2024\nPerihal: Undangan Rapat\n"

/-- The label-block nomor candidate of a text, as the code computes it
before assigning weight 100. -/
def nomorLabelCandidateOf (text : String) : Option String :=
  (labelNomorValue (cleanL (applyPreReplacements (quoteTranslate text.data)))).map
    (fun l => (⟨l⟩ : String))

/-- Presence of a non-letter keyword in the first 500 characters of the
cleaned text (rule 1 of the classifier cascade). -/
def hasLainnyaKeyword (text : String) : Bool :=
  lainnyaKeywords.any (fun kw => containsSub kw.data (ucL ((cleanL text.data).take 500)))

/-- Matcher for a bare `\b(Nomor|No)\b` token (IGNORECASE), without the
label tail. -/
def matchNomorNoWord (prev : Option Char) (l : List Char) : Option Unit :=
  if wordStartOk prev
      && (["Nomor", "No"] : List String).any (fun a =>
        ciPrefix a.data l
          && boundaryAfter ((a.data.getLast?).getD ' ') ((l.drop a.data.length).head?)) then
    some ()
  else none

/-- Whether a `Nomor`/`No` token occurs anywhere in a character list. -/
def containsNomorNoToken (T : List Char) : Bool :=
  (searchPattern matchNomorNoWord T).isSome

/-- No two adjacent space characters (an invariant of space-collapsed
text). -/
def noDoubleSpaceB : List Char → Bool
  | a :: b :: rest => !(a = ' ' && b = ' ') && noDoubleSpaceB (b :: rest)
  | _ => true

/-- The match condition of the blank-line collapse at the head of a
list. -/
def blankCondB : List Char → Bool
  | '\n' :: cs => decide (2 ≤ (cs.takeWhile isPySpace).count '\n')
  | _ => false

/-- No suffix of the list begins a blank-line-collapse match. -/
def noBlankMatch (l : List Char) : Prop :=
  ∀ b : List Char, b <:+ l → blankCondB b = false

/-- Sample page outcomes for the OCR pipeline: a page whose rendering
raises. -/
def pageRenderFail : PageOutcome :=
  { render := Except.error "render boom", procFail := false
  , primary := Except.ok "x", fallbackOcr := Except.ok "x" }

/-- A page whose recognition raises on both attempts. -/
def pageRecogFail : PageOutcome :=
  { render := Except.ok (), procFail := false
  , primary := Except.error "tesseract boom", fallbackOcr := Except.error "boom2" }

/-- A page recognised successfully. -/
def pageGood : PageOutcome :=
  { render := Except.ok (), procFail := false
  , primary := Except.ok "halaman satu", fallbackOcr := Except.error "unused" }

/-- The chunk a page appends to the aggregation list, if any (a render
failure appends none: the loop continues). -/
def pageChunk (p : PageOutcome) : Option String :=
  match p.render with
  | Except.error _ => none
  | Except.ok _ => some (if p.procFail then "" else (pageRecognition p).1)

/-- A page counted in `success_pages` by the loop. -/
def pageSuccessB (p : PageOutcome) : Bool :=
  match p.render with
  | Except.error _ => false
  | Except.ok _ => !p.procFail && (pageRecognition p).2

/-! ## Verification of the claims -/

/-- The jenis field of the parsed record is the classifier's label. -/
theorem parseMetadata_jenis_eq (mlc : String → Option (String × ℚ)) (text : String)
    (filename : Option String) :
    (parseMetadata mlc text filename).jenis
      = (detectJenis mlc text (extractNomorSurat text filename) filename).1 := by
  simp only [parseMetadata]

/-- The perihal field of the parsed record is gated on the classifier's
label. -/
theorem parseMetadata_perihal_eq (mlc : String → Option (String × ℚ)) (text : String)
    (filename : Option String) :
    (parseMetadata mlc text filename).perihal
      = (if (detectJenis mlc text (extractNomorSurat text filename) filename).1 ≠ "keluar"
         then extractPerihal text filename else none) := by
  simp only [parseMetadata]

/-- C2: for every classifier collaborator, input text and filename, the
record returned by `parse_metadata` never carries a populated perihal when
its jenis is "keluar": the subject value is absent from the output. -/
theorem c2_keluar_never_has_perihal (mlc : String → Option (String × ℚ))
    (text : String) (filename : Option String)
    (h : (parseMetadata mlc text filename).jenis = "keluar") :
    (parseMetadata mlc text filename).perihal = none := by
  rw [parseMetadata_perihal_eq]
  rw [parseMetadata_jenis_eq] at h
  rw [h]
  simp

/-- Witness for C2 at the end-to-end scenario text, whose classified type
is "keluar". -/
theorem c2_keluar_never_has_perihal_witness :
    (parseMetadata mlUnavailable c1Text none).jenis = "keluar"
      ∧ (parseMetadata mlUnavailable c1Text none).perihal = none :=
  ⟨by decide, c2_keluar_never_has_perihal mlUnavailable c1Text none (by decide)⟩

/-- C9: the folder-path resolver is a pure mapping: with tahun, jenis and
bulan all present it yields `tahun/jenis/bulan/slug`; with tahun present
and bulan absent it yields `tahun/jenis/slug`; with tahun absent it yields
`jenis/slug`. -/
theorem c9_resolve_path_mapping (tahun : Option Int) (jenis : String)
    (bulan : Option String) (slug : String) :
    (∀ y b, tahun = some y → y ≠ 0 → bulan = some b → b ≠ "" →
      resolvePath tahun jenis bulan slug = [toString y, jenis, b, slug])
    ∧ (∀ y, tahun = some y → y ≠ 0 → bulan = none →
      resolvePath tahun jenis bulan slug = [toString y, jenis, slug])
    ∧ (tahun = none → resolvePath tahun jenis bulan slug = [jenis, slug]) := by
  refine ⟨?_, ?_, ?_⟩
  · intro y b hy hy0 hb hb0
    subst hy
    subst hb
    simp [resolvePath, optIntTruthy, optStrTruthy, hy0, hb0]
  · intro y hy hy0 hb
    subst hy
    subst hb
    simp [resolvePath, optIntTruthy, optStrTruthy, hy0]
  · intro h
    subst h
    simp [resolvePath, optIntTruthy, optStrTruthy]

/-- Witness for C9 at the specification's examples. -/
theorem c9_resolve_path_mapping_witness :
    resolvePath (some 2024) "masuk" (some "Mei") "12-ab-01-02"
        = ["2024", "masuk", "Mei", "12-ab-01-02"]
      ∧ resolvePath none "masuk" none "12-ab-01-02" = ["masuk", "12-ab-01-02"] :=
  ⟨((c9_resolve_path_mapping (some 2024) "masuk" (some "Mei") "12-ab-01-02").1
      2024 "Mei" rfl (by decide) rfl (by decide)).trans (by decide),
   (c9_resolve_path_mapping none "masuk" none "12-ab-01-02").2.2 rfl⟩

/-- C10: every jenis stored by the upload finalisation is one of "masuk",
"keluar" or "lainnya", and any other label is replaced by "masuk" with
confidence 0.50 and method "invalid-fallback". -/
theorem c10_jenis_whitelist (parsedJenis : Option String) (conf : ℚ)
    (method : String) (nomorFinal : String) :
    ((jenisFinalize parsedJenis conf method nomorFinal).1 = "masuk"
      ∨ (jenisFinalize parsedJenis conf method nomorFinal).1 = "keluar"
      ∨ (jenisFinalize parsedJenis conf method nomorFinal).1 = "lainnya")
    ∧ (∀ j, parsedJenis = some j → j ≠ "masuk" → j ≠ "keluar" → j ≠ "lainnya" →
      jenisFinalize parsedJenis conf method nomorFinal
        = ("masuk", (mkRat 1 2 : ℚ), "invalid-fallback")) := by
  constructor
  · rcases parsedJenis with _ | j
    · unfold jenisFinalize
      dsimp only
      split_ifs <;> simp_all
    · unfold jenisFinalize
      dsimp only
      by_cases h1 : j = "masuk"
      · simp [h1]
      · by_cases h2 : j = "keluar"
        · simp [h1, h2]
        · by_cases h3 : j = "lainnya"
          · simp [h1, h2, h3]
          · simp [h1, h2, h3]
  · intro j hj h1 h2 h3
    subst hj
    unfold jenisFinalize
    simp [h1, h2, h3]

/-- Witness for C10: a statistical-model label outside the whitelist is
replaced before storage. -/
theorem c10_jenis_whitelist_witness :
    jenisFinalize (some "surat_dinas") (mkRat 19 20 : ℚ) "ml-classifier" "TANPA-NOMOR"
      = ("masuk", (mkRat 1 2 : ℚ), "invalid-fallback") :=
  (c10_jenis_whitelist (some "surat_dinas") (mkRat 19 20 : ℚ) "ml-classifier"
    "TANPA-NOMOR").2 "surat_dinas" rfl (by decide) (by decide) (by decide)

/-- C8: a record with a valid non-sentinel number, a valid date, a valid
year, a valid type and jenis "masuk" with no subject scores exactly
30+20+10+10 = 70 before any text-length or OCR penalty, with no subject
warning recorded. -/
theorem c8_quality_masuk_no_perihal (p : QualityInput) (n t : String) (y : Int)
    (hn : p.nomor = some n) (hn1 : n ≠ "") (hn2 : n ≠ "TANPA-NOMOR")
    (ht : p.tanggal_surat = some t) (ht1 : t ≠ "")
    (hy : p.tahun = some y) (hy1 : y ≠ 0)
    (hj : p.jenis = some "masuk")
    (hp : p.perihal = none) :
    (qualityWithPerihal p).1 = 70 ∧ subjectWarning ∉ (qualityWithPerihal p).2 := by
  have hq : qualityWithPerihal p = (70, []) := by
    unfold qualityWithPerihal qualityFieldPhase addCheck
    rw [hn, ht, hy, hj, hp]
    simp [optStrTruthy, optIntTruthy, hn1, hn2, ht1, hy1]
  rw [hq]
  exact ⟨rfl, by simp⟩

/-- Witness for C8 at a concrete fully-populated "masuk" record without a
subject. -/
theorem c8_quality_masuk_no_perihal_witness :
    (qualityWithPerihal
      { nomor := some "12/AB.01.02", tanggal_surat := some "05 May 2024"
      , tahun := some 2024, jenis := some "masuk", perihal := none }).1 = 70
    ∧ subjectWarning ∉ (qualityWithPerihal
      { nomor := some "12/AB.01.02", tanggal_surat := some "05 May 2024"
      , tahun := some 2024, jenis := some "masuk", perihal := none }).2 :=
  c8_quality_masuk_no_perihal _ "12/AB.01.02" "05 May 2024" 2024
    rfl (by decide) (by decide) rfl (by decide) rfl (by decide) rfl rfl

/-- C1: counterexample to the end-to-end scenario.  On the scenario text
the engine classifies the document as "keluar" (the nomor label *is* a
keluar pattern cue), not "masuk"; the date is rendered with an English
month name ("05 May 2024", no locale is ever set); and perihal is dropped
because the type is "keluar". -/
theorem c1_counterexample :
    ¬ ((parseMetadata mlUnavailable c1Text none).jenis = "masuk"
      ∧ (parseMetadata mlUnavailable c1Text none).tanggal_surat = some "05 Mei 2024"
      ∧ (parseMetadata mlUnavailable c1Text none).perihal = some "Undangan Rapat") := by
  intro h
  exact absurd h.1 (by decide)

/-- C1 (amended): on the scenario text `parse_metadata` returns nomor
"12/AB.01.02", tanggal_surat "05 May 2024", tahun 2024, jenis "keluar"
with confidence 0.90 and method "nomor-pattern-keluar", no perihal, and
stats counting 4 of 5 fields over 63 characters. -/
theorem c1_amended :
    parseMetadata mlUnavailable c1Text none
      = { nomor := some "12/AB.01.02"
        , tanggal_surat := some "05 May 2024"
        , tahun := some 2024
        , jenis := "keluar"
        , jenis_confidence := (mkRat 9 10 : ℚ)
        , jenis_method := "nomor-pattern-keluar"
        , perihal := none
        , stats :=
          { fields_extracted := 4
          , total_fields := 5
          , text_length := 63
          , jenis_confidence := (mkRat 9 10 : ℚ)
          , jenis_method := "nomor-pattern-keluar" } } := by
  decide

/-- C6: counterexample.  On "1 Mei 2024" an explicit date pattern fires
(day 1, month 5, year 2024), yet the output is the bare year "2024"
rather than the day-month-name-year rendering: the formatting split is by
`day != 1`, not by which pattern fired. -/
theorem c6_counterexample :
    extractTanggal "1 Mei 2024" = some ⟨2024, 5, 1⟩
    ∧ (parseMetadata mlUnavailable "1 Mei 2024" none).tanggal_surat = some "2024"
    ∧ (parseMetadata mlUnavailable "1 Mei 2024" none).tanggal_surat
        ≠ some (formatDMY ⟨2024, 5, 1⟩) :=
  ⟨by decide, by decide, by decide⟩

/-- C6 (amended): for every text, if the date extractor returns a date
with day different from 1 the record's tanggal_surat is its
day-month-name-year rendering, if it returns a date with day 1 the record
holds only the year string, and if it returns nothing the field is
absent. -/
theorem c6_amended (mlc : String → Option (String × ℚ)) (text : String)
    (filename : Option String) :
    (∀ d : Dt, extractTanggalL text.data = some d →
      (parseMetadata mlc text filename).tanggal_surat
        = some (if d.day ≠ 1 then formatDMY d else toString d.year))
    ∧ (extractTanggalL text.data = none →
      (parseMetadata mlc text filename).tanggal_surat = none) := by
  have hts : (parseMetadata mlc text filename).tanggal_surat
      = (match extractTanggalL text.data with
         | some d => if d.day ≠ 1 then some (formatDMY d) else some (toString d.year)
         | none => none) := by
    simp only [parseMetadata]
  constructor
  · intro d hd
    simp only [hts, hd]
    by_cases h1 : d.day = 1
    · simp [h1]
    · simp [h1]
  · intro hd
    simp only [hts, hd]

/-- Witness for C6 (amended) at "5 Mei 2024". -/
theorem c6_amended_witness :
    extractTanggalL ("5 Mei 2024").data = some ⟨2024, 5, 5⟩
    ∧ (parseMetadata mlUnavailable "5 Mei 2024" none).tanggal_surat
        = some "05 May 2024" :=
  ⟨by decide,
   ((c6_amended mlUnavailable "5 Mei 2024" none).1 ⟨2024, 5, 5⟩ (by decide)).trans
     (by decide)⟩

/-- A successful scan for a stronger matcher yields a successful scan for
a weaker one. -/
theorem scanWithPrev_isSome_mono {α β : Type}
    (m1 : Option Char → List Char → Option α)
    (m2 : Option Char → List Char → Option β)
    (hm : ∀ prev l, (m1 prev l).isSome = true → (m2 prev l).isSome = true)
    (prev : Option Char) (l : List Char)
    (h : (scanWithPrev m1 prev l).isSome = true) :
    (scanWithPrev m2 prev l).isSome = true := by
  induction l generalizing prev with
  | nil =>
    simp only [scanWithPrev] at h ⊢
    exact hm prev [] h
  | cons c cs ih =>
    simp only [scanWithPrev] at h ⊢
    cases h1 : m1 prev (c :: cs) with
    | some r =>
      have h2 := hm prev (c :: cs) (by simp [h1])
      cases hm2 : m2 prev (c :: cs) with
      | some s => simp
      | none => rw [hm2] at h2; simp at h2
    | none =>
      rw [h1] at h
      simp only [Option.isSome] at h
      have hrec := ih (some c) h
      cases hm2 : m2 prev (c :: cs) with
      | some s => simp
      | none => simpa using hrec

/-- The full label regex implies the bare token regex at the same
position. -/
theorem matchHasNomorLabel_imp_token (prev : Option Char) (l : List Char)
    (h : (matchHasNomorLabel prev l).isSome = true) :
    (matchNomorNoWord prev l).isSome = true := by
  unfold matchHasNomorLabel at h
  unfold matchNomorNoWord
  cases hw : wordStartOk prev with
  | false =>
    rw [hw] at h
    rw [if_pos (by simp)] at h
    simp at h
  | true =>
    rw [hw] at h
    by_cases hc : (["Nomor", "No"] : List String).any (fun a =>
        ciPrefix a.data l
          && boundaryAfter ((a.data.getLast?).getD ' ') ((l.drop a.data.length).head?)
          && nomorLabelTail (l.drop a.data.length)) = true
    · suffices hcc : ((["Nomor", "No"] : List String).any (fun a =>
            ciPrefix a.data l
              && boundaryAfter ((a.data.getLast?).getD ' ')
                  ((l.drop a.data.length).head?))) = true by
        rw [Bool.true_and, if_pos hcc]
        rfl
      revert hc
      simp only [List.any_cons, List.any_nil, Bool.or_false, Bool.or_eq_true,
        Bool.and_eq_true]
      intro hc
      tauto
    · exfalso
      rw [if_neg (by simp), if_neg hc] at h
      simp at h

/-- If the label-presence gate fires on a text, the text contains a bare
Nomor-or-No token. -/
theorem hasNomorLabel_imp_containsToken (T : List Char)
    (h : hasNomorLabel T = true) : containsNomorNoToken T = true := by
  unfold hasNomorLabel searchPattern at h
  unfold containsNomorNoToken searchPattern
  exact scanWithPrev_isSome_mono matchHasNomorLabel matchNomorNoWord
    matchHasNomorLabel_imp_token none T h

/-- C3: counterexample.  "BUKU PANDUAN" contains no Nomor-or-No token,
yet `classify` returns the non-letter-keywords triple with confidence
0.90, not ("lainnya", 0.85, "no-nomor-label"): the keyword rule precedes
the no-label rule. -/
theorem c3_counterexample :
    containsNomorNoToken (cleanL ("BUKU PANDUAN").data) = false
    ∧ detectJenis mlUnavailable "BUKU PANDUAN" none none
        = ("lainnya", (mkRat 9 10 : ℚ), "non-letter-keywords")
    ∧ detectJenis mlUnavailable "BUKU PANDUAN" none none
        ≠ ("lainnya", (mkRat 17 20 : ℚ), "no-nomor-label") :=
  ⟨by decide, by decide, by decide⟩

/-- C3 (amended): for every text with no non-letter keyword in its first
500 cleaned characters and no Nomor-or-No token anywhere in the cleaned
text, `classify` returns ("lainnya", 0.85, "no-nomor-label") regardless
of the classifier collaborator and the nomor and filename arguments. -/
theorem c3_amended (mlc : String → Option (String × ℚ)) (text : String)
    (nomor filename : Option String)
    (h1 : hasLainnyaKeyword text = false)
    (h2 : containsNomorNoToken (cleanL text.data) = false) :
    detectJenis mlc text nomor filename
      = ("lainnya", (mkRat 17 20 : ℚ), "no-nomor-label") := by
  have hlab : hasNomorLabel (cleanL text.data) = false := by
    cases hl : hasNomorLabel (cleanL text.data) with
    | false => rfl
    | true => exact absurd (hasNomorLabel_imp_containsToken _ hl) (by simp [h2])
  have h1e : lainnyaKeywords.any
      (fun kw => containsSub kw.data (ucL ((cleanL text.data).take 500))) = false := h1
  simp only [detectJenis, detectJenisL]
  rw [h1e, hlab]
  simp

/-- Witness for C3 (amended) on keyword-free, label-free text. -/
theorem c3_amended_witness :
    hasLainnyaKeyword "hello world" = false
    ∧ containsNomorNoToken (cleanL ("hello world").data) = false
    ∧ detectJenis mlUnavailable "hello world" none none
        = ("lainnya", (mkRat 17 20 : ℚ), "no-nomor-label") :=
  ⟨by decide, by decide,
   c3_amended mlUnavailable "hello world" none none (by decide) (by decide)⟩

/-- A fold for the maximum keeps a weight-100 head when every later
candidate weighs at most 95. -/
theorem foldl_max_stays (v : List Char) :
    ∀ rest : List (List Char × Nat), (∀ c ∈ rest, c.2 ≤ 95) →
      rest.foldl (fun b x => if x.2 > b.2 then x else b) (v, 100) = (v, 100) := by
  intro rest
  induction rest with
  | nil => intro _; rfl
  | cons x xs ih =>
    intro h
    simp only [List.foldl_cons]
    rw [if_neg]
    · exact ih (fun c hc => h c (List.mem_cons_of_mem x hc))
    · show ¬(x.2 > 100)
      have hx := h x (List.mem_cons_self x xs)
      omega

/-- The selection returns the weight-100 head over any tail of weights at
most 95. -/
theorem pickBest_head_max (v : List Char) (rest : List (List Char × Nat))
    (h : ∀ c ∈ rest, c.2 ≤ 95) : pickBest ((v, 100) :: rest) = some v := by
  show some ((rest.foldl (fun b x => if x.2 > b.2 then x else b) (v, 100)).1) = some v
  rw [foldl_max_stays v rest h]

/-- Direct label-pattern candidates weigh at most 95. -/
theorem patternCandidates_weight (T : List Char) :
    ∀ c ∈ patternCandidates T, c.2 ≤ 95 := by
  intro c hc
  unfold patternCandidates at hc
  simp only [List.mem_filterMap] at hc
  obtain ⟨r, _, hmap⟩ := hc
  cases r with
  | none => simp at hmap
  | some v =>
    dsimp only at hmap
    split_ifs at hmap
    injection hmap with h'
    subst h'
    simp

/-- Line-scan candidates weigh at most 95. -/
theorem scanCandidatesForLine_weight (idx : Nat) (l : List Char) :
    ∀ c ∈ scanCandidatesForLine idx l, c.2 ≤ 95 := by
  intro c hc
  unfold scanCandidatesForLine at hc
  split_ifs at hc
  case _ => simp at hc
  all_goals
    rcases List.mem_append.mp hc with hc | hc
  all_goals
    first
    | (obtain ⟨tok, _, hmap⟩ := List.mem_filterMap.mp hc
       split_ifs at hmap
       injection hmap with h'
       subst h'
       simp)
    | (cases hsm : searchMultiToken l with
       | none => rw [hsm] at hc; simp at hc
       | some p =>
         rw [hsm] at hc
         simp at hc
         rw [hc]
         simp)

/-- All 15-line scan candidates weigh at most 95. -/
theorem scanCandidates_weight (T : List Char) :
    ∀ c ∈ scanCandidates T, c.2 ≤ 95 := by
  intro c hc
  unfold scanCandidates at hc
  simp only [List.mem_join, List.mem_map] at hc
  obtain ⟨sub, ⟨p, hp, hsub⟩, hcsub⟩ := hc
  subst hsub
  exact scanCandidatesForLine_weight p.1 p.2 c hcsub

/-- Filename-derived candidates weigh at most 95. -/
theorem filenameCandidates_weight (filename : Option (List Char)) :
    ∀ c ∈ filenameCandidates filename, c.2 ≤ 95 := by
  intro c hc
  unfold filenameCandidates at hc
  cases filename with
  | none => simp at hc
  | some f =>
    dsimp only at hc
    cases hs : pySplitWs (rsplitDotHead f) with
    | nil => rw [hs] at hc; simp at hc
    | cons t rest =>
      rw [hs] at hc
      simp only at hc
      split_ifs at hc with hft
      · simp at hc
        rw [hc]
        omega
      · simp at hc

/-- C4: all candidate strategies are collected before one maximum-weight
selection, so a label-block candidate (weight 100) beats every
other candidate, in particular any filename-derived one (weight 50):
whenever the label block yields an accepted value, that value is the
returned number even when a well-formed filename candidate exists. -/
theorem c4_label_beats_filename (text : String) (filename : String) (v : String)
    (hlabel : nomorLabelCandidateOf text = some v)
    (hfile : filenameCandidates (some filename.data) ≠ []) :
    extractNomorSurat text (some filename) = some v := by
  unfold nomorLabelCandidateOf at hlabel
  obtain ⟨w, hw, hv⟩ := Option.map_eq_some'.mp hlabel
  show (extractNomorSuratL text.data (some filename.data)).map (fun l => (⟨l⟩ : String))
      = some v
  simp only [extractNomorSuratL]
  rw [hw]
  have hsingle : (match some w with
      | some u => [(u, 100)]
      | none => ([] : List (List Char × Nat))) = [(w, 100)] := rfl
  rw [hsingle]
  simp only [List.append_assoc, List.singleton_append, List.cons_append, List.nil_append]
  have hrest : ∀ c ∈ patternCandidates (cleanL (applyPreReplacements (quoteTranslate text.data)))
      ++ (scanCandidates (cleanL (applyPreReplacements (quoteTranslate text.data)))
          ++ filenameCandidates (some filename.data)), c.2 ≤ 95 := by
    intro c hc
    simp only [List.mem_append] at hc
    rcases hc with hc | hc | hc
    · exact patternCandidates_weight _ c hc
    · exact scanCandidates_weight _ c hc
    · exact filenameCandidates_weight _ c hc
  rw [pickBest_head_max w _ hrest]
  simp only [Option.map_some']
  rw [hv]

/-- Witness for C4: a label-block value and a well-formed filename
candidate coexist; the label value wins. -/
theorem c4_label_beats_filename_witness :
    nomorLabelCandidateOf "Nomor: 451/KS.02.00" = some "451/KS.02.00"
    ∧ filenameCandidates (some ("123/AB file.pdf").data) ≠ []
    ∧ extractNomorSurat "Nomor: 451/KS.02.00" (some "123/AB file.pdf")
        = some "451/KS.02.00" :=
  ⟨by decide, by decide,
   c4_label_beats_filename "Nomor: 451/KS.02.00" "123/AB file.pdf" "451/KS.02.00"
     (by decide) (by decide)⟩

/-- One loop step, expressed by the page's chunk, success and failure
contributions. -/
theorem stepPage_eq (acc : List String × Nat × Nat) (p : PageOutcome) :
    stepPage acc p
      = (acc.1 ++ (pageChunk p).toList,
         acc.2.1 + (if pageSuccessB p then 1 else 0),
         acc.2.2 + (if pageFailedB p then 1 else 0)) := by
  rcases p with ⟨render, procFail, primary, fb⟩
  cases render with
  | error e => simp [stepPage, pageChunk, pageSuccessB, pageFailedB]
  | ok u =>
    cases procFail with
    | true => simp [stepPage, pageChunk, pageSuccessB, pageFailedB]
    | false =>
      cases hr : (pageRecognition ⟨Except.ok u, false, primary, fb⟩).2 with
      | true => simp [stepPage, pageChunk, pageSuccessB, pageFailedB, hr]
      | false => simp [stepPage, pageChunk, pageSuccessB, pageFailedB, hr]

/-- The page loop accumulates the chunks of all pages in order. -/
theorem foldl_stepPage_chunks (pages : List PageOutcome) :
    ∀ acc : List String × Nat × Nat,
      (pages.foldl stepPage acc).1 = acc.1 ++ pages.filterMap pageChunk := by
  induction pages with
  | nil => intro acc; simp
  | cons p ps ih =>
    intro acc
    rw [List.foldl_cons, ih (stepPage acc p), stepPage_eq, List.filterMap_cons]
    cases hc : pageChunk p <;> simp [hc]

/-- The page loop counts exactly the successful pages. -/
theorem foldl_stepPage_success (pages : List PageOutcome) :
    ∀ acc : List String × Nat × Nat,
      (pages.foldl stepPage acc).2.1
        = acc.2.1 + (pages.filter pageSuccessB).length := by
  induction pages with
  | nil => intro acc; simp
  | cons p ps ih =>
    intro acc
    rw [List.foldl_cons, ih (stepPage acc p), stepPage_eq, List.filter_cons]
    cases hs : pageSuccessB p <;> simp [hs] <;> omega

/-- The page loop counts exactly the failed pages. -/
theorem foldl_stepPage_failed (pages : List PageOutcome) :
    ∀ acc : List String × Nat × Nat,
      (pages.foldl stepPage acc).2.2
        = acc.2.2 + (pages.filter pageFailedB).length := by
  induction pages with
  | nil => intro acc; simp
  | cons p ps ih =>
    intro acc
    rw [List.foldl_cons, ih (stepPage acc p), stepPage_eq, List.filter_cons]
    cases hf : pageFailedB p <;> simp [hf] <;> omega

/-- Filtering the kept chunks out of the appended chunks is the same as
filtering them out of the per-page aggregation texts: skipped render
failures would have contributed an unkept empty string anyway. -/
theorem filterMap_pageChunk_filter (pages : List PageOutcome) :
    (pages.filterMap pageChunk).filter chunkKept
      = (pages.map pageAggText).filter chunkKept := by
  induction pages with
  | nil => rfl
  | cons p ps ih =>
    rw [List.filterMap_cons, List.map_cons]
    cases hr : p.render with
    | error e =>
      have hc : pageChunk p = none := by simp [pageChunk, hr]
      have ha : pageAggText p = "" := by simp [pageAggText, hr]
      have hk : chunkKept "" = false := by decide
      rw [hc, ha, List.filter_cons, hk]
      simpa using ih
    | ok u =>
      have hc : pageChunk p = some (pageAggText p) := by
        simp [pageChunk, pageAggText, hr]
      rw [hc]
      show (pageAggText p :: ps.filterMap pageChunk).filter chunkKept = _
      rw [List.filter_cons, List.filter_cons]
      cases hk : chunkKept (pageAggText p) <;> simp [hk, ih]

/-- C7: in the OCR page pipeline every page is processed (total_pages
counts them all and the loop folds over the whole list), failed_pages
counts exactly the pages whose render fails or whose recognition yields
no text, every page that raises during rendering or recognition is so
counted and contributes the empty string to the aggregation, and the
returned text is the stripped newline-join of the kept per-page texts. -/
theorem c7_page_failures_recoverable (lang : String) (dpi : Nat)
    (pages : List PageOutcome) :
    (ocrPdfToText lang dpi pages).2.total_pages = pages.length
    ∧ (ocrPdfToText lang dpi pages).2.failed_pages
        = (pages.filter pageFailedB).length
    ∧ (∀ p ∈ pages, pageRaises p = true →
        pageFailedB p = true ∧ pageAggText p = "")
    ∧ (ocrPdfToText lang dpi pages).1
        = (⟨pyStrip (String.intercalate "\n"
            ((pages.map pageAggText).filter chunkKept)).data⟩ : String) := by
  refine ⟨rfl, ?_, ?_, ?_⟩
  · show (pages.foldl stepPage ([], 0, 0)).2.2 = (pages.filter pageFailedB).length
    rw [foldl_stepPage_failed pages ([], 0, 0)]
    simp
  · intro p hp hr
    rcases p with ⟨render, procFail, primary, fb⟩
    cases render <;> cases procFail <;> cases primary <;> cases fb <;>
      simp_all [pageRaises, pageFailedB, pageAggText, pageRecognition]
  · show (⟨pyStrip (String.intercalate "\n"
        (((pages.foldl stepPage ([], 0, 0)).1).filter chunkKept)).data⟩ : String) = _
    rw [foldl_stepPage_chunks pages ([], 0, 0)]
    rw [List.nil_append, filterMap_pageChunk_filter]

/-- Witness for C7 on a render failure, a double recognition failure and
a good page. -/
theorem c7_page_failures_recoverable_witness :
    (ocrPdfToText "ind" 300 [pageRenderFail, pageRecogFail, pageGood]).2.failed_pages = 2
    ∧ (pageFailedB pageRecogFail = true ∧ pageAggText pageRecogFail = "")
    ∧ (ocrPdfToText "ind" 300 [pageRenderFail, pageRecogFail, pageGood]).1
        = "halaman satu" :=
  ⟨((c7_page_failures_recoverable "ind" 300
      [pageRenderFail, pageRecogFail, pageGood]).2.1).trans (by decide),
   (c7_page_failures_recoverable "ind" 300
      [pageRenderFail, pageRecogFail, pageGood]).2.2.1 pageRecogFail
      (List.mem_cons_of_mem _ (List.mem_cons_self _ _)) (by decide),
   ((c7_page_failures_recoverable "ind" 300
      [pageRenderFail, pageRecogFail, pageGood]).2.2.2).trans (by decide)⟩

/-! ### Lemmas for the idempotence analysis of the text normalizer -/

/-- Membership transfers along a verified list-prefix test. -/
theorem mem_of_isPrefixOf {a : Char} :
    ∀ {p l : List Char}, p.isPrefixOf l = true → a ∈ p → a ∈ l := by
  intro p
  induction p with
  | nil => intro l _ ha; simp at ha
  | cons x xs ih =>
    intro l hp ha
    cases l with
    | nil => simp [List.isPrefixOf] at hp
    | cons y ys =>
      simp only [List.isPrefixOf, Bool.and_eq_true, beq_iff_eq] at hp
      rcases List.mem_cons.mp ha with rfl | ha
      · exact hp.1 ▸ List.mem_cons_self y ys
      · exact List.mem_cons_of_mem y (ih hp.2 ha)

/-- The head surviving `dropWhile` fails the predicate. -/
theorem dropWhile_head_false (p : Char → Bool) :
    ∀ (l : List Char) (h : Char), (l.dropWhile p).head? = some h → p h = false := by
  intro l
  induction l with
  | nil => intro h hh; simp at hh
  | cons c cs ih =>
    intro h hh
    by_cases hc : p c = true
    · rw [List.dropWhile_cons_of_pos hc] at hh
      exact ih h hh
    · rw [List.dropWhile_cons_of_neg hc] at hh
      injection hh with hh
      subst hh
      simpa using hc

/-- `dropWhile` is idempotent. -/
theorem dropWhile_idem (p : Char → Bool) (l : List Char) :
    (l.dropWhile p).dropWhile p = l.dropWhile p := by
  induction l with
  | nil => rfl
  | cons c cs ih =>
    by_cases hc : p c = true
    · rw [List.dropWhile_cons_of_pos hc, ih]
    · rw [List.dropWhile_cons_of_neg hc, List.dropWhile_cons_of_neg hc]

/-- `dropWhileEnd` keeps an initial segment; the removed tail satisfies
the predicate throughout. -/
theorem dropWhileEnd_eq_append (p : Char → Bool) (l : List Char) :
    ∃ t, l = dropWhileEnd p l ++ t ∧ t.all p = true := by
  refine ⟨(l.reverse.takeWhile p).reverse, ?_, ?_⟩
  · unfold dropWhileEnd
    rw [← List.reverse_append]
    rw [List.takeWhile_append_dropWhile]
    rw [List.reverse_reverse]
  · rw [List.all_eq_true]
    intro a ha
    exact List.mem_takeWhile_imp (List.mem_reverse.mp ha)

/-- `dropWhileEnd` is idempotent. -/
theorem dropWhileEnd_idem (p : Char → Bool) (l : List Char) :
    dropWhileEnd p (dropWhileEnd p l) = dropWhileEnd p l := by
  unfold dropWhileEnd
  rw [List.reverse_reverse, dropWhile_idem]

/-- Characters of the both-ends strip come from the input. -/
theorem mem_pyStrip {a : Char} {l : List Char} (h : a ∈ pyStrip l) : a ∈ l := by
  unfold pyStrip at h
  obtain ⟨t, ht, _⟩ := dropWhileEnd_eq_append isPySpace (l.dropWhile isPySpace)
  have h1 : a ∈ l.dropWhile isPySpace := by
    rw [ht]
    exact List.mem_append_left t h
  exact ((List.dropWhile_suffix isPySpace).sublist.subset) h1

/-- The both-ends strip is idempotent. -/
theorem pyStrip_idem (l : List Char) : pyStrip (pyStrip l) = pyStrip l := by
  unfold pyStrip
  have hdw : (dropWhileEnd isPySpace (l.dropWhile isPySpace)).dropWhile isPySpace
      = dropWhileEnd isPySpace (l.dropWhile isPySpace) := by
    cases hr : dropWhileEnd isPySpace (l.dropWhile isPySpace) with
    | nil => rfl
    | cons x xs =>
      obtain ⟨t, ht, _⟩ := dropWhileEnd_eq_append isPySpace (l.dropWhile isPySpace)
      have hx : (l.dropWhile isPySpace).head? = some x := by
        rw [ht, hr]
        rfl
      have : isPySpace x = false := dropWhile_head_false isPySpace l x hx
      exact List.dropWhile_cons_of_neg (by simp [this])
  rw [hdw, dropWhileEnd_idem]

/-- A Python replace with a slash in its pattern fixes every
slash-free list, at every fuel. -/
theorem pyReplaceFuel_id (pat rep : List Char) (hpat : '/' ∈ pat) :
    ∀ (fuel : Nat) (l : List Char), (∀ c ∈ l, c ≠ '/') →
      pyReplaceFuel pat rep fuel l = l := by
  intro fuel
  induction fuel with
  | zero => intro l _; cases l <;> rfl
  | succ f ih =>
    intro l h
    cases l with
    | nil => rfl
    | cons c cs =>
      have hred : pyReplaceFuel pat rep (f + 1) (c :: cs)
          = if pat ≠ [] ∧ pat.isPrefixOf (c :: cs) then
              rep ++ pyReplaceFuel pat rep f (cs.drop (pat.length - 1))
            else
              c :: pyReplaceFuel pat rep f cs := rfl
      rw [hred, if_neg]
      · rw [ih cs (fun d hd => h d (List.mem_cons_of_mem c hd))]
      · rintro ⟨-, hpre⟩
        exact h '/' (mem_of_isPrefixOf hpre hpat) rfl

/-- A Python replace with a slash in its pattern fixes every slash-free
list. -/
theorem pyReplace_id (pat rep : List Char) (hpat : '/' ∈ pat) (l : List Char)
    (h : ∀ c ∈ l, c ≠ '/') : pyReplace pat rep l = l :=
  pyReplaceFuel_id pat rep hpat l.length l h

/-- The literal-replacement chain fixes every slash-free list. -/
theorem applyReplacements_id (l : List Char) (h : ∀ c ∈ l, c ≠ '/') :
    applyReplacements l = l := by
  unfold applyReplacements ocrReplacements
  simp only [List.foldl_cons, List.foldl_nil]
  rw [pyReplace_id _ _ (by decide) l h, pyReplace_id _ _ (by decide) l h,
    pyReplace_id _ _ (by decide) l h, pyReplace_id _ _ (by decide) l h,
    pyReplace_id _ _ (by decide) l h, pyReplace_id _ _ (by decide) l h,
    pyReplace_id _ _ (by decide) l h, pyReplace_id _ _ (by decide) l h]

/-- A digit-backslash-slash repair match needs a slash. -/
theorem sub1Tail_some_mem (cs : List Char) (n : Nat) (hm : sub1Tail cs = some n) :
    '/' ∈ cs := by
  unfold sub1Tail at hm
  split at hm
  · rename_i rest
    dsimp only at hm
    split at hm
    · rename_i heq2
      have : '/' ∈ rest.drop (rest.takeWhile isPySpace).length := by
        rw [heq2]
        exact List.mem_cons_self _ _
      exact List.mem_cons_of_mem _ (List.drop_subset _ rest this)
    · exact absurd hm (by simp)
  · exact absurd hm (by simp)

/-- The repair fixes every slash-free list, at every fuel. -/
theorem sub1Fuel_id : ∀ (fuel : Nat) (l : List Char), (∀ c ∈ l, c ≠ '/') →
    sub1Fuel fuel l = l := by
  intro fuel
  induction fuel with
  | zero => intro l _; cases l <;> rfl
  | succ f ih =>
    intro l h
    cases l with
    | nil => rfl
    | cons c cs =>
      have hred : sub1Fuel (f + 1) (c :: cs)
          = if c.isDigit then
              match sub1Tail cs with
              | some n => c :: '/' :: sub1Fuel f (cs.drop n)
              | none => c :: sub1Fuel f cs
            else c :: sub1Fuel f cs := rfl
      have htail : ∀ d ∈ cs, d ≠ '/' := fun d hd => h d (List.mem_cons_of_mem c hd)
      have hnone : sub1Tail cs = none := by
        cases hm : sub1Tail cs with
        | none => rfl
        | some n => exact absurd rfl (htail '/' (sub1Tail_some_mem cs n hm))
      rw [hred, hnone]
      by_cases hd : c.isDigit = true
      · rw [if_pos hd, ih cs htail]
      · rw [if_neg hd, ih cs htail]

/-- `sub1` fixes every slash-free list. -/
theorem sub1_id (l : List Char) (h : ∀ c ∈ l, c ≠ '/') : sub1 l = l :=
  sub1Fuel_id l.length l h

/-- An apostrophe-artifact tail match needs a slash. -/
theorem sub2Tail_some_mem (rest : List Char) (n : Nat) (hm : sub2Tail rest = some n) :
    '/' ∈ rest := by
  unfold sub2Tail at hm
  dsimp only at hm
  split at hm
  · rename_i c r3 heq
    split_ifs at hm with hc
    · split at hm
      · rename_i tail heq2
        have h3 : '/' ∈ r3.drop (r3.takeWhile isPySpace).length := by
          rw [heq2]
          exact List.mem_cons_self _ _
        have h4 : '/' ∈ c :: r3 := List.mem_cons_of_mem _ (List.drop_subset _ r3 h3)
        rw [← heq] at h4
        exact List.drop_subset _ rest h4
      · exact absurd hm (by simp)
  · exact absurd hm (by simp)

/-- An apostrophe-artifact match needs a slash. -/
theorem sub2Match_some_mem (l : List Char) (d : List Char) (n : Nat)
    (hm : sub2Match l = some (d, n)) : '/' ∈ l := by
  unfold sub2Match at hm
  dsimp only at hm
  by_cases h3 : (decide ((l.take 3).length = 3) && (l.take 3).all (fun x => x.isDigit)) = true
  · rw [if_pos h3] at hm
    cases hc3 : sub2Tail (l.drop 3) with
    | some m => exact List.drop_subset _ l (sub2Tail_some_mem _ m hc3)
    | none =>
      rw [hc3] at hm
      dsimp only at hm
      by_cases h2 : (decide ((l.take 2).length = 2) && (l.take 2).all (fun x => x.isDigit)) = true
      · rw [if_pos h2] at hm
        cases hc2 : sub2Tail (l.drop 2) with
        | some m => exact List.drop_subset _ l (sub2Tail_some_mem _ m hc2)
        | none => rw [hc2] at hm; simp at hm
      · rw [if_neg h2] at hm
        simp at hm
  · rw [if_neg h3] at hm
    dsimp only at hm
    by_cases h2 : (decide ((l.take 2).length = 2) && (l.take 2).all (fun x => x.isDigit)) = true
    · rw [if_pos h2] at hm
      cases hc2 : sub2Tail (l.drop 2) with
      | some m => exact List.drop_subset _ l (sub2Tail_some_mem _ m hc2)
      | none => rw [hc2] at hm; simp at hm
    · rw [if_neg h2] at hm
      simp at hm

/-- The apostrophe repair fixes every slash-free list, at every fuel. -/
theorem sub2Fuel_id : ∀ (fuel : Nat) (l : List Char), (∀ c ∈ l, c ≠ '/') →
    sub2Fuel fuel l = l := by
  intro fuel
  induction fuel with
  | zero => intro l _; cases l <;> rfl
  | succ f ih =>
    intro l h
    cases l with
    | nil => rfl
    | cons c cs =>
      have hred : sub2Fuel (f + 1) (c :: cs)
          = if c.isDigit then
              match sub2Match (c :: cs) with
              | some (d, n) => d ++ [' ', '/'] ++ sub2Fuel f (cs.drop (n - 1))
              | none => c :: sub2Fuel f cs
            else c :: sub2Fuel f cs := rfl
      have hnone : sub2Match (c :: cs) = none := by
        cases hm : sub2Match (c :: cs) with
        | none => rfl
        | some p => exact absurd rfl (h '/' (sub2Match_some_mem _ p.1 p.2 (by rw [hm])))
      rw [hred, hnone]
      by_cases hd : c.isDigit = true
      · rw [if_pos hd, ih cs (fun d hd2 => h d (List.mem_cons_of_mem c hd2))]
      · rw [if_neg hd, ih cs (fun d hd2 => h d (List.mem_cons_of_mem c hd2))]

/-- `sub2` fixes every slash-free list. -/
theorem sub2_id (l : List Char) (h : ∀ c ∈ l, c ≠ '/') : sub2 l = l :=
  sub2Fuel_id l.length l h

/-- The head-run backtracker only returns positive match lengths. -/
theorem nomorHeadPick_pos (l : List Char) :
    ∀ (j n : Nat), nomorHeadPick l j = some n → 1 ≤ n := by
  intro j
  induction j with
  | zero => intro n h; exact absurd h (by simp [nomorHeadPick])
  | succ k ih =>
    intro n h
    unfold nomorHeadPick at h
    dsimp only at h
    split at h
    · rename_i sep hsep
      split_ifs at h with hns
      · split at h
        · rename_i m hm
          injection h with h'
          omega
        · exact ih n h
      · exact ih n h
    · exact ih n h

/-- The registration-number-shape matcher only returns positive match
lengths. -/
theorem nomorShapeMatch_pos (prev : Option Char) (l : List Char) (n : Nat)
    (h : nomorShapeMatch prev l = some n) : 1 ≤ n := by
  unfold nomorShapeMatch at h
  split_ifs at h with hw
  dsimp only at h
  exact nomorHeadPick_pos l _ n h

/-- The confusion fix leaves O-free l-free text alone. -/
theorem map_fixChar_id (l : List Char) (h : ∀ c ∈ l, c ≠ 'O' ∧ c ≠ 'l') :
    l.map fixChar = l := by
  induction l with
  | nil => rfl
  | cons c cs ih =>
    have hc := h c (List.mem_cons_self c cs)
    rw [List.map_cons, ih (fun d hd => h d (List.mem_cons_of_mem c hd))]
    unfold fixChar
    rw [if_neg hc.1, if_neg hc.2]

/-- The registration-number repair fixes every O-free l-free list, at
every fuel. -/
theorem nomorFixFuel_id :
    ∀ (fuel : Nat) (prev : Option Char) (l : List Char),
      (∀ c ∈ l, c ≠ 'O' ∧ c ≠ 'l') → nomorFixFuel fuel prev l = l := by
  intro fuel
  induction fuel with
  | zero => intro prev l h; cases l <;> rfl
  | succ f ih =>
    intro prev l h
    cases l with
    | nil => rfl
    | cons c cs =>
      have hred : nomorFixFuel (f + 1) prev (c :: cs)
          = match nomorShapeMatch prev (c :: cs) with
            | some n =>
              ((c :: cs).take n).map fixChar
                ++ nomorFixFuel f ((c :: cs).take n).getLast? (cs.drop (n - 1))
            | none => c :: nomorFixFuel f (some c) cs := rfl
      rw [hred]
      cases hm : nomorShapeMatch prev (c :: cs) with
      | none =>
        show c :: nomorFixFuel f (some c) cs = c :: cs
        rw [ih (some c) cs (fun d hd => h d (List.mem_cons_of_mem c hd))]
      | some n =>
        show ((c :: cs).take n).map fixChar
            ++ nomorFixFuel f ((c :: cs).take n).getLast? (cs.drop (n - 1)) = c :: cs
        have hn : 1 ≤ n := nomorShapeMatch_pos prev (c :: cs) n hm
        have h1 : ((c :: cs).take n).map fixChar = (c :: cs).take n :=
          map_fixChar_id _ (fun d hd => h d (List.take_subset n (c :: cs) hd))
        have h2 : cs.drop (n - 1) = (c :: cs).drop n := by
          cases n with
          | zero => exact absurd hn (by decide)
          | succ m => simp
        rw [h1, h2, ih _ _ (fun d hd => h d (List.drop_subset n (c :: cs) hd))]
        exact List.take_append_drop n (c :: cs)

/-- The registration-number repair fixes every O-free l-free list. -/
theorem nomorFix_id (prev : Option Char) (l : List Char)
    (h : ∀ c ∈ l, c ≠ 'O' ∧ c ≠ 'l') : nomorFix prev l = l :=
  nomorFixFuel_id l.length prev l h

/-- The no-double-space invariant passes to the tail. -/
theorem noDS_tail (c : Char) (cs : List Char) (h : noDoubleSpaceB (c :: cs) = true) :
    noDoubleSpaceB cs = true := by
  cases cs with
  | nil => rfl
  | cons d ds =>
    have hdef : noDoubleSpaceB (c :: d :: ds)
        = (!(c = ' ' && d = ' ') && noDoubleSpaceB (d :: ds)) := rfl
    rw [hdef] at h
    simp only [Bool.and_eq_true] at h
    exact h.2

/-- The no-double-space invariant passes to any drop. -/
theorem noDS_drop : ∀ (n : Nat) (l : List Char), noDoubleSpaceB l = true →
    noDoubleSpaceB (l.drop n) = true := by
  intro n
  induction n with
  | zero => intro l h; simpa using h
  | succ m ih =>
    intro l h
    cases l with
    | nil => rfl
    | cons c cs =>
      rw [List.drop_succ_cons]
      exact ih cs (noDS_tail c cs h)

/-- The no-double-space invariant passes to a right part. -/
theorem noDS_of_append_right : ∀ (a t : List Char),
    noDoubleSpaceB (a ++ t) = true → noDoubleSpaceB t = true := by
  intro a
  induction a with
  | nil => intro t h; simpa using h
  | cons x xs ih =>
    intro t h
    exact ih t (noDS_tail x (xs ++ t) (by simpa using h))

/-- The no-double-space invariant passes to a left part. -/
theorem noDS_append_left : ∀ (a t : List Char),
    noDoubleSpaceB (a ++ t) = true → noDoubleSpaceB a = true := by
  intro a
  induction a with
  | nil => intro t _; rfl
  | cons x xs ih =>
    intro t h
    cases xs with
    | nil => rfl
    | cons y ys =>
      have h' : noDoubleSpaceB (x :: y :: (ys ++ t)) = true := by simpa using h
      have hdef : noDoubleSpaceB (x :: y :: (ys ++ t))
          = (!(x = ' ' && y = ' ') && noDoubleSpaceB (y :: (ys ++ t))) := rfl
      rw [hdef] at h'
      simp only [Bool.and_eq_true] at h'
      obtain ⟨h1, h2⟩ := h'
      have h3 : noDoubleSpaceB (y :: ys) = true := ih t (by simpa using h2)
      have hdef2 : noDoubleSpaceB (x :: y :: ys)
          = (!(x = ' ' && y = ' ') && noDoubleSpaceB (y :: ys)) := rfl
      rw [hdef2, h1, h3]
      rfl

/-- Build the no-double-space invariant from the tail and a head
condition. -/
theorem noDS_cons_intro (a : Char) (R : List Char)
    (h1 : noDoubleSpaceB R = true)
    (h2 : a = ' ' → R.head? ≠ some ' ') : noDoubleSpaceB (a :: R) = true := by
  cases R with
  | nil => rfl
  | cons x xs =>
    have hdef : noDoubleSpaceB (a :: x :: xs)
        = (!(a = ' ' && x = ' ') && noDoubleSpaceB (x :: xs)) := rfl
    rw [hdef, h1, Bool.and_true, Bool.not_eq_true']
    by_cases ha : a = ' '
    · have hx : x ≠ ' ' := by
        intro hx
        exact h2 ha (by subst hx; rfl)
      simp [ha, hx]
    · simp [ha]

/-- After a space, the rest of a no-double-space list does not start with
a space. -/
theorem noDS_head_of_space (cs : List Char)
    (h : noDoubleSpaceB (' ' :: cs) = true) : cs.head? ≠ some ' ' := by
  cases cs with
  | nil => simp
  | cons x xs =>
    have hdef : noDoubleSpaceB (' ' :: x :: xs)
        = (!(' ' = ' ' && x = ' ') && noDoubleSpaceB (x :: xs)) := rfl
    rw [hdef] at h
    simp only [Bool.and_eq_true] at h
    obtain ⟨h1, -⟩ := h
    simp only [Bool.not_eq_true', Bool.and_eq_false_iff] at h1
    rcases h1 with h1 | h1
    · simp at h1
    · simp [show x ≠ ' ' by simpa using h1]

/-- The space-collapse pass keeps a non-space-tab head. -/
theorem collapseSpacesFuel_head (fuel : Nat) (d : Char) (ds : List Char)
    (hd : (d = ' ' || d = '	') = false) :
    (collapseSpacesFuel fuel (d :: ds)).head? = some d := by
  cases fuel with
  | zero => rfl
  | succ f =>
    have hred : collapseSpacesFuel (f + 1) (d :: ds)
        = if d = ' ' || d = '	' then
            ' ' :: collapseSpacesFuel f (ds.dropWhile (fun e => e = ' ' || e = '	'))
          else d :: collapseSpacesFuel f ds := rfl
    rw [hred, if_neg (by simp [hd])]
    rfl

/-- With enough fuel, the space collapse never emits a tab. -/
theorem collapseSpacesFuel_noTab :
    ∀ (fuel : Nat) (l : List Char), l.length ≤ fuel →
      '	' ∉ collapseSpacesFuel fuel l := by
  intro fuel
  induction fuel with
  | zero =>
    intro l hl
    have hnil : l = [] := List.length_eq_zero.mp (Nat.le_zero.mp hl)
    subst hnil
    show '	' ∉ ([] : List Char)
    simp
  | succ f ih =>
    intro l hl
    cases l with
    | nil =>
      show '	' ∉ ([] : List Char)
      simp
    | cons c cs =>
      have hlen : cs.length ≤ f := Nat.le_of_succ_le_succ (by simpa using hl)
      have hred : collapseSpacesFuel (f + 1) (c :: cs)
          = if c = ' ' || c = '	' then
              ' ' :: collapseSpacesFuel f (cs.dropWhile (fun e => e = ' ' || e = '	'))
            else c :: collapseSpacesFuel f cs := rfl
      rw [hred]
      by_cases hc : (c = ' ' || c = '	') = true
      · rw [if_pos hc]
        intro hmem
        rcases List.mem_cons.mp hmem with heq | hmem2
        · exact absurd heq (by decide)
        · exact ih (cs.dropWhile (fun e => e = ' ' || e = '	'))
            (le_trans (List.dropWhile_sublist _).length_le hlen) hmem2
      · rw [if_neg hc]
        intro hmem
        rcases List.mem_cons.mp hmem with heq | hmem2
        · exact hc (by rw [← heq]; simp)
        · exact ih cs hlen hmem2

/-- With enough fuel, the space collapse never emits two adjacent
spaces. -/
theorem collapseSpacesFuel_noDS :
    ∀ (fuel : Nat) (l : List Char), l.length ≤ fuel →
      noDoubleSpaceB (collapseSpacesFuel fuel l) = true := by
  intro fuel
  induction fuel with
  | zero =>
    intro l hl
    have hnil : l = [] := List.length_eq_zero.mp (Nat.le_zero.mp hl)
    subst hnil
    rfl
  | succ f ih =>
    intro l hl
    cases l with
    | nil => rfl
    | cons c cs =>
      have hlen : cs.length ≤ f := Nat.le_of_succ_le_succ (by simpa using hl)
      have hred : collapseSpacesFuel (f + 1) (c :: cs)
          = if c = ' ' || c = '	' then
              ' ' :: collapseSpacesFuel f (cs.dropWhile (fun e => e = ' ' || e = '	'))
            else c :: collapseSpacesFuel f cs := rfl
      rw [hred]
      by_cases hc : (c = ' ' || c = '	') = true
      · rw [if_pos hc]
        apply noDS_cons_intro
        · exact ih _ (le_trans (List.dropWhile_sublist _).length_le hlen)
        · intro _
          intro hh
          cases hcs2 : cs.dropWhile (fun e => e = ' ' || e = '	') with
          | nil =>
            rw [hcs2] at hh
            have hemp : collapseSpacesFuel f ([] : List Char) = [] := by cases f <;> rfl
            rw [hemp] at hh
            simp at hh
          | cons d ds =>
            have hd : (d = ' ' || d = '	') = false :=
              dropWhile_head_false (fun e => e = ' ' || e = '	') cs d (by rw [hcs2]; rfl)
            rw [hcs2, collapseSpacesFuel_head f d ds hd] at hh
            injection hh with hh
            rw [hh] at hd
            simp at hd
      · rw [if_neg hc]
        apply noDS_cons_intro
        · exact ih cs hlen
        · intro hca
          exact absurd (show (c = ' ' || c = '	') = true by simp [hca]) hc

/-- The space collapse fixes tab-free, double-space-free lists, at every
fuel. -/
theorem collapseSpacesFuel_id :
    ∀ (fuel : Nat) (l : List Char), '	' ∉ l → noDoubleSpaceB l = true →
      collapseSpacesFuel fuel l = l := by
  intro fuel
  induction fuel with
  | zero => intro l _ _; cases l <;> rfl
  | succ f ih =>
    intro l hTab hDS
    cases l with
    | nil => rfl
    | cons c cs =>
      have hct : c ≠ '	' := fun hx => hTab (by rw [← hx]; exact List.mem_cons_self c cs)
      have hred : collapseSpacesFuel (f + 1) (c :: cs)
          = if c = ' ' || c = '	' then
              ' ' :: collapseSpacesFuel f (cs.dropWhile (fun e => e = ' ' || e = '	'))
            else c :: collapseSpacesFuel f cs := rfl
      rw [hred]
      have hTabT : '	' ∉ cs := fun hx => hTab (List.mem_cons_of_mem _ hx)
      by_cases hc : (c = ' ' || c = '	') = true
      · have hcsp : c = ' ' := by
          have := hc
          simp at this
          tauto
        subst hcsp
        rw [if_pos (by decide)]
        have hdw : cs.dropWhile (fun e => e = ' ' || e = '	') = cs := by
          cases cs with
          | nil => rfl
          | cons d ds =>
            have hhead := noDS_head_of_space (d :: ds) hDS
            have hd1 : d ≠ ' ' := by
              intro hx
              exact hhead (by simp [hx])
            have hd2 : d ≠ '	' := fun hx =>
              hTabT (by rw [← hx]; exact List.mem_cons_self d ds)
            exact List.dropWhile_cons_of_neg (by simp [hd1, hd2])
        rw [hdw, ih cs hTabT (noDS_tail _ _ hDS)]
      · rw [if_neg hc, ih cs hTabT (noDS_tail _ _ hDS)]

/-- Characters of the space collapse come from the input or are the
space. -/
theorem mem_collapseSpacesFuel :
    ∀ (fuel : Nat) (l : List Char) (a : Char), a ∈ collapseSpacesFuel fuel l →
      a ∈ l ∨ a = ' ' := by
  intro fuel
  induction fuel with
  | zero =>
    intro l a h
    cases l with
    | nil => exact Or.inl h
    | cons c cs => exact Or.inl h
  | succ f ih =>
    intro l a h
    cases l with
    | nil => exact Or.inl h
    | cons c cs =>
      have hred : collapseSpacesFuel (f + 1) (c :: cs)
          = if c = ' ' || c = '	' then
              ' ' :: collapseSpacesFuel f (cs.dropWhile (fun e => e = ' ' || e = '	'))
            else c :: collapseSpacesFuel f cs := rfl
      rw [hred] at h
      by_cases hc : (c = ' ' || c = '	') = true
      · rw [if_pos hc] at h
        rcases List.mem_cons.mp h with rfl | h2
        · exact Or.inr rfl
        rcases ih _ a h2 with h3 | h3
        · exact Or.inl (List.mem_cons_of_mem _ ((List.dropWhile_sublist _).subset h3))
        · exact Or.inr h3
      · rw [if_neg hc] at h
        rcases List.mem_cons.mp h with rfl | h2
        · exact Or.inl (List.mem_cons_self _ _)
        rcases ih cs a h2 with h3 | h3
        · exact Or.inl (List.mem_cons_of_mem _ h3)
        · exact Or.inr h3

/-- The blank-line collapse preserves the head. -/
theorem collapseBlankLinesFuel_head :
    ∀ (fuel : Nat) (l : List Char),
      (collapseBlankLinesFuel fuel l).head? = l.head? := by
  intro fuel
  cases fuel with
  | zero => intro l; cases l <;> rfl
  | succ f =>
    intro l
    cases l with
    | nil => rfl
    | cons c cs =>
      have hred : collapseBlankLinesFuel (f + 1) (c :: cs)
          = if c = '\n' && 2 ≤ (cs.takeWhile isPySpace).count '\n' then
              '\n' :: '\n' ::
                collapseBlankLinesFuel f
                  (cs.drop (dropWhileEnd (fun d => d ≠ '\n') (cs.takeWhile isPySpace)).length)
            else c :: collapseBlankLinesFuel f cs := rfl
      rw [hred]
      by_cases hc : (c = '\n' && 2 ≤ (cs.takeWhile isPySpace).count '\n') = true
      · rw [if_pos hc]
        simp only [Bool.and_eq_true, decide_eq_true_eq] at hc
        rw [hc.1]
        rfl
      · rw [if_neg hc]
        rfl

/-- Characters of the blank-line collapse come from the input or are the
newline. -/
theorem mem_collapseBlankLinesFuel :
    ∀ (fuel : Nat) (l : List Char) (a : Char), a ∈ collapseBlankLinesFuel fuel l →
      a ∈ l ∨ a = '\n' := by
  intro fuel
  induction fuel with
  | zero =>
    intro l a h
    cases l with
    | nil => exact Or.inl h
    | cons c cs => exact Or.inl h
  | succ f ih =>
    intro l a h
    cases l with
    | nil => exact Or.inl h
    | cons c cs =>
      have hred : collapseBlankLinesFuel (f + 1) (c :: cs)
          = if c = '\n' && 2 ≤ (cs.takeWhile isPySpace).count '\n' then
              '\n' :: '\n' ::
                collapseBlankLinesFuel f
                  (cs.drop (dropWhileEnd (fun d => d ≠ '\n') (cs.takeWhile isPySpace)).length)
            else c :: collapseBlankLinesFuel f cs := rfl
      rw [hred] at h
      by_cases hc : (c = '\n' && 2 ≤ (cs.takeWhile isPySpace).count '\n') = true
      · rw [if_pos hc] at h
        rcases List.mem_cons.mp h with rfl | h2
        · exact Or.inr rfl
        rcases List.mem_cons.mp h2 with rfl | h3
        · exact Or.inr rfl
        rcases ih _ a h3 with h4 | h4
        · exact Or.inl (List.mem_cons_of_mem _ (List.drop_subset _ _ h4))
        · exact Or.inr h4
      · rw [if_neg hc] at h
        rcases List.mem_cons.mp h with rfl | h2
        · exact Or.inl (List.mem_cons_self _ _)
        rcases ih cs a h2 with h3 | h3
        · exact Or.inl (List.mem_cons_of_mem _ h3)
        · exact Or.inr h3

/-- The blank-line collapse preserves the no-double-space invariant. -/
theorem collapseBlankLinesFuel_noDS :
    ∀ (fuel : Nat) (l : List Char), noDoubleSpaceB l = true →
      noDoubleSpaceB (collapseBlankLinesFuel fuel l) = true := by
  intro fuel
  induction fuel with
  | zero =>
    intro l h
    cases l with
    | nil => exact h
    | cons c cs => exact h
  | succ f ih =>
    intro l h
    cases l with
    | nil => rfl
    | cons c cs =>
      have hred : collapseBlankLinesFuel (f + 1) (c :: cs)
          = if c = '\n' && 2 ≤ (cs.takeWhile isPySpace).count '\n' then
              '\n' :: '\n' ::
                collapseBlankLinesFuel f
                  (cs.drop (dropWhileEnd (fun d => d ≠ '\n') (cs.takeWhile isPySpace)).length)
            else c :: collapseBlankLinesFuel f cs := rfl
      rw [hred]
      by_cases hc : (c = '\n' && 2 ≤ (cs.takeWhile isPySpace).count '\n') = true
      · rw [if_pos hc]
        have hrest : noDoubleSpaceB
            (cs.drop (dropWhileEnd (fun d => d ≠ '\n') (cs.takeWhile isPySpace)).length) = true :=
          noDS_drop _ cs (noDS_tail _ _ h)
        apply noDS_cons_intro
        · apply noDS_cons_intro
          · exact ih _ hrest
          · intro h'
            exact absurd h' (by decide)
        · intro h'
          exact absurd h' (by decide)
      · rw [if_neg hc]
        apply noDS_cons_intro
        · exact ih cs (noDS_tail _ _ h)
        · intro hca
          rw [collapseBlankLinesFuel_head]
          subst hca
          exact noDS_head_of_space cs h

/-- The match condition of the blank-line collapse at a newline head. -/
theorem blankCondB_cons_nl (x : List Char) :
    blankCondB ('\n' :: x) = decide (2 ≤ (x.takeWhile isPySpace).count '\n') := rfl

/-- A true blank-line condition exposes its shape. -/
theorem blankCondB_true_elim (b : List Char) (h : blankCondB b = true) :
    ∃ cs, b = '\n' :: cs ∧ 2 ≤ (cs.takeWhile isPySpace).count '\n' := by
  unfold blankCondB at h
  split at h
  · rename_i cs
    exact ⟨cs, rfl, by simpa using h⟩
  · exact absurd h (by simp)

/-- Whitespace-prefix newline counts only grow under a right append. -/
theorem count_takeWhile_append (cs t : List Char) :
    (cs.takeWhile isPySpace).count '\n' ≤ ((cs ++ t).takeWhile isPySpace).count '\n' := by
  induction cs with
  | nil => simp
  | cons d ds ih =>
    by_cases hd : isPySpace d = true
    · rw [List.cons_append, List.takeWhile_cons_of_pos hd, List.takeWhile_cons_of_pos hd]
      simp only [List.count_cons]
      omega
    · rw [List.cons_append, List.takeWhile_cons_of_neg hd, List.takeWhile_cons_of_neg hd]

/-- A true blank-line condition stays true under a right append. -/
theorem blankCondB_append_mono (b t : List Char) (h : blankCondB b = true) :
    blankCondB (b ++ t) = true := by
  obtain ⟨cs, rfl, hc⟩ := blankCondB_true_elim b h
  rw [List.cons_append, blankCondB_cons_nl]
  simp only [decide_eq_true_eq]
  exact le_trans hc (count_takeWhile_append cs t)

/-- The empty list has no blank-line match. -/
theorem noBlank_nil : noBlankMatch [] := by
  intro b hb
  rw [List.suffix_nil.mp hb]
  rfl

/-- Absence of blank-line matches passes to suffixes. -/
theorem noBlank_suffix {l s : List Char} (h : noBlankMatch l) (hs : s <:+ l) :
    noBlankMatch s := fun b hb => h b (hb.trans hs)

/-- Absence of blank-line matches passes to a left part. -/
theorem noBlank_append_left (a t : List Char) (h : noBlankMatch (a ++ t)) :
    noBlankMatch a := by
  intro b hb
  cases hbc : blankCondB b with
  | false => rfl
  | true =>
    have h1 : blankCondB (b ++ t) = true := blankCondB_append_mono b t hbc
    have h2 : b ++ t <:+ a ++ t := by
      obtain ⟨p, hp⟩ := hb
      exact ⟨p, by rw [← hp, List.append_assoc]⟩
    have h3 := h (b ++ t) h2
    rw [h1] at h3
    exact absurd h3 (by simp)

/-- `takeWhile` passes over a block that satisfies the predicate. -/
theorem takeWhile_append_all (p : Char → Bool) (S A : List Char)
    (h : S.all p = true) : (S ++ A).takeWhile p = S ++ A.takeWhile p := by
  induction S with
  | nil => simp
  | cons x xs ih =>
    simp only [List.all_cons, Bool.and_eq_true] at h
    rw [List.cons_append, List.takeWhile_cons_of_pos h.1, ih h.2, List.cons_append]

/-- The blank-line collapse preserves a newline-free whitespace prefix. -/
theorem count_wsPrefix_cBLF_zero :
    ∀ (fuel : Nat) (l : List Char),
      (l.takeWhile isPySpace).count '\n' = 0 →
      ((collapseBlankLinesFuel fuel l).takeWhile isPySpace).count '\n' = 0 := by
  intro fuel
  induction fuel with
  | zero =>
    intro l h
    cases l with
    | nil => exact h
    | cons c cs => exact h
  | succ f ih =>
    intro l h
    cases l with
    | nil => exact h
    | cons c cs =>
      have hred : collapseBlankLinesFuel (f + 1) (c :: cs)
          = if c = '\n' && 2 ≤ (cs.takeWhile isPySpace).count '\n' then
              '\n' :: '\n' ::
                collapseBlankLinesFuel f
                  (cs.drop (dropWhileEnd (fun d => d ≠ '\n') (cs.takeWhile isPySpace)).length)
            else c :: collapseBlankLinesFuel f cs := rfl
      rw [hred]
      by_cases hw : isPySpace c = true
      · have hcn : c ≠ '\n' := by
          intro hcn
          subst hcn
          rw [List.takeWhile_cons_of_pos hw, List.count_cons] at h
          simp at h
        rw [if_neg (by simp [hcn])]
        have h' : (cs.takeWhile isPySpace).count '\n' = 0 := by
          rw [List.takeWhile_cons_of_pos hw, List.count_cons] at h
          omega
        rw [List.takeWhile_cons_of_pos hw, List.count_cons, ih cs h']
        simp [hcn]
      · have hcn : c ≠ '\n' := by
          intro hcn
          rw [hcn] at hw
          exact hw (by decide)
        rw [if_neg (by simp [hcn]), List.takeWhile_cons_of_neg hw]
        rfl

/-- The blank-line collapse keeps the whitespace-prefix newline count
at most one. -/
theorem count_wsPrefix_cBLF_le_one :
    ∀ (fuel : Nat) (l : List Char),
      (l.takeWhile isPySpace).count '\n' ≤ 1 →
      ((collapseBlankLinesFuel fuel l).takeWhile isPySpace).count '\n' ≤ 1 := by
  intro fuel
  induction fuel with
  | zero =>
    intro l h
    cases l with
    | nil => exact h
    | cons c cs => exact h
  | succ f ih =>
    intro l h
    cases l with
    | nil => exact h
    | cons c cs =>
      have hred : collapseBlankLinesFuel (f + 1) (c :: cs)
          = if c = '\n' && 2 ≤ (cs.takeWhile isPySpace).count '\n' then
              '\n' :: '\n' ::
                collapseBlankLinesFuel f
                  (cs.drop (dropWhileEnd (fun d => d ≠ '\n') (cs.takeWhile isPySpace)).length)
            else c :: collapseBlankLinesFuel f cs := rfl
      rw [hred]
      by_cases hw : isPySpace c = true
      · by_cases hcn : c = '\n'
        · subst hcn
          have h0 : (cs.takeWhile isPySpace).count '\n' = 0 := by
            rw [List.takeWhile_cons_of_pos hw, List.count_cons] at h
            simp at h
            omega
          rw [if_neg (by simp [h0])]
          rw [List.takeWhile_cons_of_pos hw, List.count_cons,
            count_wsPrefix_cBLF_zero f cs h0]
          simp
        · rw [if_neg (by simp [hcn])]
          have h' : (cs.takeWhile isPySpace).count '\n' ≤ 1 := by
            rw [List.takeWhile_cons_of_pos hw, List.count_cons] at h
            omega
          rw [List.takeWhile_cons_of_pos hw, List.count_cons]
          have hih := ih cs h'
          have hbeq : (c == '\n') = false := by simp [hcn]
          rw [hbeq]
          simpa using hih
      · have hcn : c ≠ '\n' := by
          intro hcn
          rw [hcn] at hw
          exact hw (by decide)
        rw [if_neg (by simp [hcn]), List.takeWhile_cons_of_neg hw]
        simp

/-- With enough fuel, the blank-line collapse leaves no blank-line
match. -/
theorem noBlank_cBLF :
    ∀ (fuel : Nat) (l : List Char), l.length ≤ fuel →
      noBlankMatch (collapseBlankLinesFuel fuel l) := by
  intro fuel
  induction fuel with
  | zero =>
    intro l hl
    have hnil : l = [] := List.length_eq_zero.mp (Nat.le_zero.mp hl)
    subst hnil
    exact noBlank_nil
  | succ f ih =>
    intro l hl
    cases l with
    | nil => exact noBlank_nil
    | cons c cs =>
      have hlen : cs.length ≤ f := Nat.le_of_succ_le_succ (by simpa using hl)
      have hred : collapseBlankLinesFuel (f + 1) (c :: cs)
          = if c = '\n' && 2 ≤ (cs.takeWhile isPySpace).count '\n' then
              '\n' :: '\n' ::
                collapseBlankLinesFuel f
                  (cs.drop (dropWhileEnd (fun d => d ≠ '\n') (cs.takeWhile isPySpace)).length)
            else c :: collapseBlankLinesFuel f cs := rfl
      rw [hred]
      by_cases hc : (c = '\n' && 2 ≤ (cs.takeWhile isPySpace).count '\n') = true
      · rw [if_pos hc]
        obtain ⟨S, hWS, hSall⟩ :=
          dropWhileEnd_eq_append (fun d => d ≠ '\n') (cs.takeWhile isPySpace)
        have hsplit : cs = (dropWhileEnd (fun d => d ≠ '\n') (cs.takeWhile isPySpace))
            ++ (S ++ cs.dropWhile isPySpace) := by
          rw [← List.append_assoc, ← hWS]
          exact (List.takeWhile_append_dropWhile isPySpace cs).symm
        have hrest : cs.drop (dropWhileEnd (fun d => d ≠ '\n') (cs.takeWhile isPySpace)).length
            = S ++ cs.dropWhile isPySpace := by
          have hdl := List.drop_left
            (dropWhileEnd (fun d => d ≠ '\n') (cs.takeWhile isPySpace))
            (S ++ cs.dropWhile isPySpace)
          rw [← hsplit] at hdl
          exact hdl
        have hSws : S.all isPySpace = true := by
          rw [List.all_eq_true]
          intro a ha
          have ham : a ∈ cs.takeWhile isPySpace := by
            rw [hWS]
            exact List.mem_append_right _ ha
          exact List.mem_takeWhile_imp ham
        have htwA : (cs.dropWhile isPySpace).takeWhile isPySpace = [] := by
          cases hA : cs.dropWhile isPySpace with
          | nil => rfl
          | cons d ds =>
            have hd : isPySpace d = false :=
              dropWhile_head_false isPySpace cs d (by rw [hA]; rfl)
            exact List.takeWhile_cons_of_neg (by simp [hd])
        have hcount0 : ((S ++ cs.dropWhile isPySpace).takeWhile isPySpace).count '\n' = 0 := by
          rw [takeWhile_append_all isPySpace S _ hSws, htwA, List.append_nil,
            List.count_eq_zero]
          intro hmem
          have hall := List.all_eq_true.mp hSall '\n' hmem
          simp at hall
        have hR0 : (((collapseBlankLinesFuel f
            (cs.drop (dropWhileEnd (fun d => d ≠ '\n') (cs.takeWhile isPySpace)).length)).takeWhile
              isPySpace).count '\n') = 0 := by
          apply count_wsPrefix_cBLF_zero
          rw [hrest]
          exact hcount0
        have hlen2 : (cs.drop
            (dropWhileEnd (fun d => d ≠ '\n') (cs.takeWhile isPySpace)).length).length ≤ f := by
          rw [List.length_drop]
          omega
        have hRnb := ih _ hlen2
        intro b hb
        rcases List.suffix_cons_iff.mp hb with rfl | hb2
        · rw [blankCondB_cons_nl]
          rw [List.takeWhile_cons_of_pos (by decide), List.count_cons, hR0]
          simp
        rcases List.suffix_cons_iff.mp hb2 with rfl | hb3
        · rw [blankCondB_cons_nl, hR0]
          simp
        · exact hRnb b hb3
      · rw [if_neg hc]
        have hRnb := ih cs hlen
        intro b hb
        rcases List.suffix_cons_iff.mp hb with rfl | hb2
        · cases hbc : blankCondB (c :: collapseBlankLinesFuel f cs) with
          | false => rfl
          | true =>
            obtain ⟨cs2, heq, hcount⟩ := blankCondB_true_elim _ hbc
            injection heq with h1 h2
            subst h1
            rw [← h2] at hcount
            have hcs1 : (cs.takeWhile isPySpace).count '\n' ≤ 1 := by
              by_contra hgt
              exact hc (by simp; omega)
            have hle := count_wsPrefix_cBLF_le_one f cs hcs1
            omega
        · exact hRnb b hb2

/-- The blank-line collapse fixes lists with no blank-line match, at
every fuel. -/
theorem collapseBlankLinesFuel_id :
    ∀ (fuel : Nat) (l : List Char), noBlankMatch l →
      collapseBlankLinesFuel fuel l = l := by
  intro fuel
  induction fuel with
  | zero => intro l _; cases l <;> rfl
  | succ f ih =>
    intro l h
    cases l with
    | nil => rfl
    | cons c cs =>
      have hred : collapseBlankLinesFuel (f + 1) (c :: cs)
          = if c = '\n' && 2 ≤ (cs.takeWhile isPySpace).count '\n' then
              '\n' :: '\n' ::
                collapseBlankLinesFuel f
                  (cs.drop (dropWhileEnd (fun d => d ≠ '\n') (cs.takeWhile isPySpace)).length)
            else c :: collapseBlankLinesFuel f cs := rfl
      rw [hred]
      cases hcond : (c = '\n' && 2 ≤ (cs.takeWhile isPySpace).count '\n') with
      | true =>
        exfalso
        simp only [Bool.and_eq_true, decide_eq_true_eq] at hcond
        obtain ⟨h1, h2⟩ := hcond
        subst h1
        have hbc : blankCondB ('\n' :: cs) = true := by
          rw [blankCondB_cons_nl]
          simpa using h2
        have hfalse := h ('\n' :: cs) (List.suffix_refl _)
        rw [hbc] at hfalse
        exact absurd hfalse (by simp)
      | false =>
        rw [if_neg (by simp)]
        rw [ih cs (noBlank_suffix h ⟨[c], rfl⟩)]

/-- The both-ends strip preserves the no-double-space invariant. -/
theorem noDS_pyStrip (l : List Char) (h : noDoubleSpaceB l = true) :
    noDoubleSpaceB (pyStrip l) = true := by
  unfold pyStrip
  have h1 : noDoubleSpaceB (l.dropWhile isPySpace) = true := by
    obtain ⟨t, ht⟩ := (List.dropWhile_suffix isPySpace : l.dropWhile isPySpace <:+ l)
    rw [← ht] at h
    exact noDS_of_append_right t _ h
  obtain ⟨t2, ht2, -⟩ := dropWhileEnd_eq_append isPySpace (l.dropWhile isPySpace)
  rw [ht2] at h1
  exact noDS_append_left _ _ h1

/-- The both-ends strip preserves the absence of blank-line matches. -/
theorem noBlank_pyStrip (l : List Char) (h : noBlankMatch l) :
    noBlankMatch (pyStrip l) := by
  unfold pyStrip
  have h1 : noBlankMatch (l.dropWhile isPySpace) :=
    noBlank_suffix h (List.dropWhile_suffix isPySpace)
  obtain ⟨t2, ht2, -⟩ := dropWhileEnd_eq_append isPySpace (l.dropWhile isPySpace)
  apply noBlank_append_left _ t2
  rw [← ht2]
  exact h1

/-- On slash-free, O-free, l-free input the replacement and repair stages
of `_clean_text` are all identities. -/
theorem cleanL_reduce (l : List Char)
    (h1 : ∀ c ∈ l, c ≠ '/')
    (h2 : ∀ c ∈ l, c ≠ 'O' ∧ c ≠ 'l') :
    cleanL l = pyStrip (collapseBlankLines (collapseSpaces l)) := by
  unfold cleanL
  rw [applyReplacements_id l h1, sub1_id l h1, sub2_id l h1, nomorFix_id none l h2]

/-- C5: counterexample.  The normalizer is not idempotent: on the
slash-slash-dash string the first pass turns the prefix into a single
slash-dash pair which the second pass reduces again. -/
theorem c5_counterexample :
    cleanText (cleanText "//-") ≠ cleanText "//-" := by decide

/-- C5 (amended): the normalizer is idempotent on every string that
contains no slash, no capital O and no lowercase l (the characters the
contextual OCR repairs react to). -/
theorem c5_amended (s : String)
    (h : ∀ c ∈ s.data, c ≠ '/' ∧ c ≠ 'O' ∧ c ≠ 'l') :
    cleanText (cleanText s) = cleanText s := by
  have hs1 : ∀ c ∈ s.data, c ≠ '/' := fun c hc => (h c hc).1
  have hsO : ∀ c ∈ s.data, c ≠ 'O' ∧ c ≠ 'l' := fun c hc => (h c hc).2
  have hpass1 : cleanL s.data = pyStrip (collapseBlankLines (collapseSpaces s.data)) :=
    cleanL_reduce s.data hs1 hsO
  have hmemu : ∀ c ∈ cleanL s.data, c ∈ s.data ∨ c = ' ' ∨ c = '\n' := by
    intro c hc
    rw [hpass1] at hc
    have hc1 := mem_pyStrip hc
    rcases mem_collapseBlankLinesFuel _ _ c hc1 with hc2 | hc2
    · rcases mem_collapseSpacesFuel _ _ c hc2 with hc3 | hc3
      · exact Or.inl hc3
      · exact Or.inr (Or.inl hc3)
    · exact Or.inr (Or.inr hc2)
  have hu : ∀ c ∈ cleanL s.data, c ≠ '/' ∧ c ≠ 'O' ∧ c ≠ 'l' := by
    intro c hc
    rcases hmemu c hc with hcm | rfl | rfl
    · exact h c hcm
    · exact ⟨by decide, by decide, by decide⟩
    · exact ⟨by decide, by decide, by decide⟩
  have hTab_cs : '\t' ∉ collapseSpaces s.data :=
    collapseSpacesFuel_noTab s.data.length s.data le_rfl
  have hDS_cs : noDoubleSpaceB (collapseSpaces s.data) = true :=
    collapseSpacesFuel_noDS s.data.length s.data le_rfl
  have hDS_cb : noDoubleSpaceB (collapseBlankLines (collapseSpaces s.data)) = true :=
    collapseBlankLinesFuel_noDS _ _ hDS_cs
  have hTab_cb : '\t' ∉ collapseBlankLines (collapseSpaces s.data) := by
    intro hmem
    rcases mem_collapseBlankLinesFuel _ _ '\t' hmem with hm2 | hm2
    · exact hTab_cs hm2
    · exact absurd hm2 (by decide)
  have hNB_cb : noBlankMatch (collapseBlankLines (collapseSpaces s.data)) :=
    noBlank_cBLF (collapseSpaces s.data).length (collapseSpaces s.data) le_rfl
  have hTab_u : '\t' ∉ pyStrip (collapseBlankLines (collapseSpaces s.data)) :=
    fun hm => hTab_cb (mem_pyStrip hm)
  have hDS_u : noDoubleSpaceB (pyStrip (collapseBlankLines (collapseSpaces s.data))) = true :=
    noDS_pyStrip _ hDS_cb
  have hNB_u : noBlankMatch (pyStrip (collapseBlankLines (collapseSpaces s.data))) :=
    noBlank_pyStrip _ hNB_cb
  have hu1 : ∀ c ∈ cleanL s.data, c ≠ '/' := fun c hc => (hu c hc).1
  have huO : ∀ c ∈ cleanL s.data, c ≠ 'O' ∧ c ≠ 'l' := fun c hc => (hu c hc).2
  have hpass2 := cleanL_reduce (cleanL s.data) hu1 huO
  have hcsu : collapseSpaces (cleanL s.data) = cleanL s.data := by
    rw [hpass1]
    exact collapseSpacesFuel_id _ _ hTab_u hDS_u
  have hcbu : collapseBlankLines (cleanL s.data) = cleanL s.data := by
    rw [hpass1]
    exact collapseBlankLinesFuel_id _ _ hNB_u
  have hstu : pyStrip (cleanL s.data) = cleanL s.data := by
    rw [hpass1]
    exact pyStrip_idem _
  have hmain : cleanL (cleanL s.data) = cleanL s.data := by
    rw [hpass2, hcsu, hcbu, hstu]
  simp only [cleanText]
  rw [hmain]

/-- Witness for C5 (amended) on a string with runs of spaces and blank
lines but none of the repair-sensitive characters. -/
theorem c5_amended_witness :
    cleanText (cleanText "a  b\n\n\n\nc") = cleanText "a  b\n\n\n\nc" :=
  c5_amended "a  b\n\n\n\nc" (by decide)

end Arsip
